import Mathlib

/-!
# Bridge dedup rules over the ebtables client

A shallow embedding of `pkg/bridge/bridge.go` and `pkg/bridge/ebtables/ebtables.go`.

* Go strings are lists of characters (`Str`), so a text is taken to be valid
  UTF-8; the few functions of the Go
  standard library that the code calls (`strings.Split`, `strings.TrimSpace`,
  `strings.HasPrefix`, `strings.Join`, `strings.Contains`, `strconv.Itoa`,
  `fmt.Sprintf`) are written out as structural recursions.
* The operating system (binary lookup, process execution, sysctl) is a
  parameter `World σ`; the client code is state passing over it and records
  every `cmd.Run()` it performs.
* A Go panic is a result of its own (`Res.panic`).
-/

namespace Bridge

/-! ## Go strings -/

/-- Go string, as the sequence of its characters. -/
abbrev Str := List Char

/-- A Go string literal. -/
def str (s : String) : Str := s.toList

/-- Go `[]string`, as the sequence of its elements. -/
abbrev Strings := List Str

/-- Go `unicode.IsSpace`: the Latin-1 spaces and the other code points with the
White_Space property. -/
def isSpace (c : Char) : Bool :=
  c == '\t' || c == '\n' || c.toNat == 0x0B || c.toNat == 0x0C || c == '\r' || c == ' ' ||
  c.toNat == 0x85 || c.toNat == 0xA0 || c.toNat == 0x1680 ||
  (0x2000 ≤ c.toNat && c.toNat ≤ 0x200A) ||
  c.toNat == 0x2028 || c.toNat == 0x2029 || c.toNat == 0x202F || c.toNat == 0x205F ||
  c.toNat == 0x3000

/-- Go `strings.TrimSpace`: drop the leading and the trailing white space. -/
def trimSpace (s : Str) : Str :=
  ((s.dropWhile isSpace).reverse.dropWhile isSpace).reverse

/-- Go `strings.Split(s, sep)` for a one-character separator: the pieces between
the separators, in order; a text without separator is its own single piece. -/
def split (s : Str) (sep : Char) : List Str :=
  match s with
  | [] => [[]]
  | c :: cs =>
    if c = sep then [] :: split cs sep
    else
      match split cs sep with
      | [] => [[c]]
      | l :: ls => (c :: l) :: ls

/-- Go `strings.HasPrefix`. -/
def hasPrefix (s pre : Str) : Bool :=
  pre.isPrefixOf s

/-- Go `strings.Join`. -/
def join (elems : List Str) (sep : Str) : Str :=
  match elems with
  | [] => []
  | [e] => e
  | e :: es => e ++ sep ++ join es sep

/-- Go `strings.Contains`: some suffix of `s` starts with `substr`. -/
def contains (s substr : Str) : Bool :=
  match s with
  | [] => substr.isPrefixOf []
  | c :: cs => substr.isPrefixOf (c :: cs) || contains cs substr

/-- Go `strconv.Itoa`, and `%v` of an `int`: the decimal digits, with a minus
sign in front of a negative number. -/
def itoa (n : Int) : Str :=
  match n with
  | Int.ofNat m => Nat.toDigits 10 m
  | Int.negSucc m => '-' :: Nat.toDigits 10 (m + 1)

/-! ## Errors -/

/-- The Go `error` values this code handles. -/
inductive GoError where
  /-- The `*ebtables.Error`: the exit status of the process and its stderr. -/
  | ebt (status : Int) (msg : Str)
  /-- Any other error (of `exec.LookPath`, of `sysctl.Sysctl`), by its text. -/
  | ext (text : Str)
  deriving DecidableEq, Repr

/-- The method `Error()`; for `*ebtables.Error` it is
`fmt.Sprintf("exit status %v: %v", e.ExitStatus(), e.msg)`. -/
def GoError.Error (e : GoError) : Str :=
  match e with
  | .ebt status msg => str "exit status " ++ itoa status ++ str ": " ++ msg
  | .ext text => text

/-! ## The operating system -/

/-- What `cmd.Run()` returns when it does not return nil. -/
inductive RunErr where
  /-- An `*exec.ExitError`: the process ran and did not exit with status 0. -/
  | exit (status : Int)
  /-- An error of another type: the process could not be started, or its
  output could not be copied. -/
  | other (text : Str)
  deriving DecidableEq, Repr

/-- Outcome of one `cmd.Run()`: the text written to stdout and to stderr, and
the error returned. -/
structure CmdOut where
  stdout : Str
  stderr : Str
  err : Option RunErr
  deriving DecidableEq, Repr

/-- The collaborators of the client, over a state `σ` of the machine. -/
structure World (σ : Type) where
  /-- Go `exec.LookPath`. -/
  lookPath : σ → Str → Except GoError Str
  /-- Go `cmd.Run()` of the command with the given path and argument vector. -/
  run : σ → Str → List Str → σ × CmdOut
  /-- Go `sysctl.Sysctl(name, value)`. -/
  sysctl : σ → Str → Str → σ × Option GoError

/-- One `cmd.Run()`: the `Path` and the `Args` of the command. -/
structure Invocation where
  path : Str
  args : List Str
  deriving DecidableEq, Repr

/-- State of a run: the machine, and the commands run so far, oldest first. -/
structure Sys (σ : Type) where
  world : σ
  trace : List Invocation

/-- Result of a Go function: it returns, or it panics. -/
inductive Res (α : Type) where
  | ret (a : α)
  | panic
  deriving DecidableEq, Repr

/-- A Go function with effects on the machine. -/
def Go (σ α : Type) : Type := Sys σ → Sys σ × Res α

instance (σ : Type) : Monad (Go σ) where
  pure a := fun s => (s, Res.ret a)
  bind m f := fun s =>
    match m s with
    | (s', Res.ret a) => f a s'
    | (s', Res.panic) => (s', Res.panic)

/-- A Go panic. -/
def goPanic {σ α : Type} : Go σ α := fun s => (s, Res.panic)

/-- Run a command: the machine answers, and the command is recorded. -/
def cmdRun {σ : Type} (w : World σ) (path : Str) (args : List Str) : Go σ CmdOut := fun s =>
  let r := w.run s.world path args
  (⟨r.1, s.trace ++ [⟨path, args⟩]⟩, Res.ret r.2)

/-- Go `exec.LookPath`. -/
def lookPath {σ : Type} (w : World σ) (file : Str) : Go σ (Except GoError Str) := fun s =>
  (s, Res.ret (w.lookPath s.world file))

/-- Go `sysctl.Sysctl`. -/
def sysctlSet {σ : Type} (w : World σ) (name value : Str) : Go σ (Option GoError) := fun s =>
  let r := w.sysctl s.world name value
  (⟨r.1, s.trace⟩, Res.ret r.2)

/-! ## `ebtables.go` -/

def sysctlBridgeCallIPTables : Str := str "net/bridge/bridge-nf-call-iptables"

/-- The client: the resolved path of the ebtables binary. -/
structure EBTables where
  path : Str
  deriving DecidableEq, Repr

/-- The conversion `&Error{*(err.(*exec.ExitError)), stderr.String()}`: the type
assertion panics on an error that is not an `*exec.ExitError`. -/
def toError {σ : Type} (err : RunErr) (stderr : Str) : Go σ GoError :=
  match err with
  | .exit status => pure (GoError.ebt status stderr)
  | .other _ => goPanic

/-- Go `New`. -/
def New {σ : Type} (w : World σ) : Go σ (Option EBTables × Option GoError) := do
  match ← lookPath w (str "ebtables") with
  | .error err => return (none, some err)
  | .ok path =>
    match ← lookPath w (str "modprobe") with
    | .error err => return (none, some err)
    | .ok modprobe =>
      let args := [modprobe, str "br-netfilter"]
      let out ← cmdRun w modprobe args
      match out.err with
      | some err =>
        let e ← toError err out.stderr
        return (none, some e)
      | none =>
        -- Allow iptables to see bridged traffic.
        match ← sysctlSet w sysctlBridgeCallIPTables (str "1") with
        | some err => return (none, some err)
        | none => return (some ⟨path⟩, none)

/-- Go `runWithOutput`; the text the command wrote to `stdout` is returned along
with the error. -/
def EBTables.runWithOutput {σ : Type} (w : World σ) (ebt : EBTables) (args : List Str) :
    Go σ (Str × Option GoError) := do
  let args := [ebt.path, str "--concurrent"] ++ args
  let out ← cmdRun w ebt.path args
  match out.err with
  | some err =>
    let e ← toError err out.stderr
    return (out.stdout, some e)
  | none => return (out.stdout, none)

/-- Go `run`: `runWithOutput` with no writer for stdout. -/
def EBTables.run {σ : Type} (w : World σ) (ebt : EBTables) (args : List Str) :
    Go σ (Option GoError) := do
  let r ← ebt.runWithOutput w args
  return r.2

/-- The body of the loop of `List`: one line of the output. -/
def listStep (rules : List Str) (r : Str) : List Str :=
  -- Skip blank lines and lines like "Bridge table: filter"
  let r := trimSpace r
  if hasPrefix r (str "Bridge") || r == [] then rules
  else rules ++ [r]

/-- Go `List`: the current rules in the specified chain and table. -/
def EBTables.List {σ : Type} (w : World σ) (ebt : EBTables) (table chain : Str) :
    Go σ (Strings × Option GoError) := do
  let cmd := [str "-t", table, str "-L", chain, str "--Lmac2"]
  let r ← ebt.runWithOutput w cmd
  match r.2 with
  | some err => return ([], some err)
  | none => return ((split r.1 '\n').foldl listStep [], none)

/-- The loop of `Exists`: is some listed rule the joined rule. -/
def existsLoop (rules : List Str) (rule : Strings) : Bool :=
  match rules with
  | [] => false
  | r :: rs => if r = join rule (str " ") then true else existsLoop rs rule

/-- Go `Exists`. -/
def EBTables.Exists {σ : Type} (w : World σ) (ebt : EBTables) (table chain : Str)
    (rule : Strings) : Go σ (Bool × Option GoError) := do
  let r ← ebt.List w table chain
  match r.2 with
  | some err => return (false, some err)
  | none => return (existsLoop r.1 rule, none)

/-- Go `Insert`. -/
def EBTables.Insert {σ : Type} (w : World σ) (ebt : EBTables) (table chain : Str) (pos : Int)
    (rule : Strings) : Go σ (Option GoError) :=
  let cmd := [str "-t", table, str "-I", chain, itoa pos] ++ rule
  ebt.run w cmd

/-- Go `Append`. -/
def EBTables.Append {σ : Type} (w : World σ) (ebt : EBTables) (table chain : Str)
    (rule : Strings) : Go σ (Option GoError) :=
  let cmd := [str "-t", table, str "-A", chain] ++ rule
  ebt.run w cmd

/-- Go `AppendUnique`: append a rule only if the rule does not exist. -/
def EBTables.AppendUnique {σ : Type} (w : World σ) (ebt : EBTables) (table chain : Str)
    (rule : Strings) : Go σ (Option GoError) := do
  let r ← ebt.Exists w table chain rule
  match r.2 with
  | some err => return some err
  | none =>
    if !r.1 then ebt.Append w table chain rule
    else return none

/-- Go `Delete`. -/
def EBTables.Delete {σ : Type} (w : World σ) (ebt : EBTables) (table chain : Str)
    (rule : Strings) : Go σ (Option GoError) :=
  let cmd := [str "-t", table, str "-D", chain] ++ rule
  ebt.run w cmd

/-- Go `NewChain`. -/
def EBTables.NewChain {σ : Type} (w : World σ) (ebt : EBTables) (table chain : Str) :
    Go σ (Option GoError) :=
  ebt.run w [str "-t", table, str "-N", chain]

/-- Go `DeleteChain`. -/
def EBTables.DeleteChain {σ : Type} (w : World σ) (ebt : EBTables) (table chain : Str) :
    Go σ (Option GoError) :=
  ebt.run w [str "-t", table, str "-X", chain]

/-! ## Go slices -/

/-- A Go slice of strings: its backing array (as long as the capacity) and the
number of elements in view. -/
structure Slice where
  arr : List Str
  len : Nat

/-- The elements of a slice. -/
def Slice.elems (s : Slice) : List Str := s.arr.take s.len

/-- A slice literal: the capacity is the length. -/
def sliceLit (xs : List Str) : Slice := ⟨xs, xs.length⟩

/-- Go `append(s, xs...)`: the new slice, and the slice `s` as it is seen
afterwards. With room in the backing array the elements are written in place
behind the view of `s`; without room a new array is made and `s` is untouched
(the new array is taken to be just as long as the new slice). -/
def goAppend (s : Slice) (xs : List Str) : Slice × Slice :=
  if s.len + xs.length ≤ s.arr.length then
    let arr := s.arr.take s.len ++ xs ++ s.arr.drop (s.len + xs.length)
    (⟨arr, s.len + xs.length⟩, ⟨arr, s.len⟩)
  else
    (⟨s.elems ++ xs, s.len + xs.length⟩, s)

/-! ## `bridge.go` -/

def dedupChain : Str := str "CNI-DEDUP"

def filterTable : Str := str "filter"

def outputChain : Str := str "OUTPUT"

/-- The elements of the slice literal `common_args` of `AddDedupRules`. -/
def common_args (mac : Str) : List Str :=
  [str "-p", str "IPv4", str "-s", mac, str "-o", str "veth+", str "--ip-src"]

/-- Go `AddDedupRules`. -/
def AddDedupRules {σ : Type} (w : World σ) (mac ip nw : Str) : Go σ (Option GoError) := do
  match ← New w with
  | (_, some err) => return some err
  | (none, none) => goPanic -- a nil client: `New` never returns it without an error
  | (some ebt, none) =>
    let chainErr ← ebt.NewChain w filterTable dedupChain
    -- Make chain creation idempotent.
    let fatal := match chainErr with
      | some err => if !contains err.Error (str "already exists") then some err else none
      | none => none
    match fatal with
    | some err => return some err
    | none =>
      let common := sliceLit (common_args mac)
      let accept := goAppend common [ip, str "-j", str "ACCEPT"]
      match ← ebt.AppendUnique w filterTable dedupChain accept.1.elems with
      | some err => return some err
      | none =>
        let drop := goAppend accept.2 [nw, str "-j", str "DROP"]
        match ← ebt.AppendUnique w filterTable dedupChain drop.1.elems with
        | some err => return some err
        | none =>
          match ← ebt.AppendUnique w filterTable outputChain [str "-j", dedupChain] with
          | some err => return some err
          | none => return none

/-- Go `DeleteDedupRules`. -/
def DeleteDedupRules {σ : Type} (w : World σ) : Go σ (Option GoError) := do
  match ← New w with
  | (_, some err) => return some err
  | (none, none) => goPanic
  | (some ebt, none) =>
    match ← ebt.Delete w filterTable outputChain [str "-j", dedupChain] with
    | some err =>
      -- Make rule deletion idempotent.
      if contains err.Error (str "Illegal target name") then return none
      else return some err
    | none =>
      match ← ebt.DeleteChain w filterTable dedupChain with
      | some err =>
        -- Make chain deletion idempotent.
        if contains err.Error (str "Illegal target name") then return none
        else return some err
      | none => return none

/-! ## A model of the rule store

The machine of the model holds the chains of every table. Creating a chain that
exists fails with a stderr that contains "already exists", appending adds the
rule, joined by single spaces, as the last rule of the chain, and listing
prints each rule of the chain on a line of its own. The header lines that the
real binary prints before the rules are left out: they begin with "Bridge" or
are blank, and `List` drops them. Which argument vectors the operating system
starts is a parameter of the model. -/

/-- The chains of the built-in tables that exist without being created. -/
def builtinChain (table chain : Str) : Bool :=
  (table == (str "filter") &&
    (chain == (str "INPUT") || chain == (str "FORWARD") || chain == (str "OUTPUT"))) ||
  (table == (str "nat") &&
    (chain == (str "PREROUTING") || chain == (str "OUTPUT") || chain == (str "POSTROUTING"))) ||
  (table == (str "broute") && chain == (str "BROUTING"))

/-- The rule store: the rules of each chain that was created or written to. -/
structure Store where
  chains : Str → Str → Option (List Str)

/-- The rules of a chain, when the chain exists. -/
def Store.rules (st : Store) (table chain : Str) : Option (List Str) :=
  match st.chains table chain with
  | some rs => some rs
  | none => if builtinChain table chain then some [] else none

/-- The store with the rules of one chain replaced. -/
def Store.set (st : Store) (table chain : Str) (rs : List Str) : Store :=
  ⟨fun t c => if t = table ∧ c = chain then some rs else st.chains t c⟩

/-- The store with only the built-in chains, all empty. -/
def Store.empty : Store := ⟨fun _ _ => none⟩

/-- The text of a listing: each rule on a line of its own. -/
def listing (rs : List Str) : Str :=
  match rs with
  | [] => []
  | r :: rest => r ++ '\n' :: listing rest

/-- A command that failed with exit status 255 and the given stderr. -/
def failed (msg : Str) : CmdOut := ⟨[], msg, some (RunErr.exit 255)⟩

/-- A command that succeeded with the given stdout. -/
def succeeded (out : Str) : CmdOut := ⟨out, [], none⟩

/-- The ebtables binary of the model, on the argument vector of a command:
listing (`-L`), chain creation (`-N`) and appending (`-A`); the model has no
other command. -/
def ebtablesModel (st : Store) (argv : List Str) : Store × CmdOut :=
  match argv with
  | _ :: conc :: t :: table :: op :: chain :: rest =>
    if conc = (str "--concurrent") ∧ t = (str "-t") then
      if op = (str "-L") ∧ rest = [str "--Lmac2"] then
        match st.rules table chain with
        | some rs => (st, succeeded (listing rs))
        | none => (st, failed ((str "Chain ") ++ chain ++ (str " doesn't exist.\n")))
      else if op = (str "-N") ∧ rest = [] then
        match st.rules table chain with
        | some _ => (st, failed ((str "Chain ") ++ chain ++ (str " already exists.\n")))
        | none => (st.set table chain [], succeeded [])
      else if op = (str "-A") then
        match st.rules table chain with
        | some rs => (st.set table chain (rs ++ [join rest (str " ")]), succeeded [])
        | none => (st, failed ((str "Chain ") ++ chain ++ (str " doesn't exist.\n")))
      else (st, failed (str "Unsupported command.\n"))
    else (st, failed (str "Unsupported command.\n"))
  | _ => (st, failed (str "Unsupported command.\n"))

/-- The outcome of a command that the operating system did not start. -/
def refused : CmdOut :=
  ⟨[], [], some (RunErr.other (str "fork/exec: invalid argument"))⟩

/-- The machine of the model, for the argument vectors `starts` that the
operating system starts: both binaries are found, loading the module and
setting the sysctl succeed, the ebtables binary works on the store, and
`cmd.Run()` of an argument vector that is not started returns an error that is
not an `*exec.ExitError` and leaves the store as it is. -/
def storeWorld (starts : List Str → Bool) : World Store where
  lookPath := fun _ file => Except.ok (str "/sbin/" ++ file)
  run := fun st path argv =>
    if starts argv then
      if path = str "/sbin/ebtables" then ebtablesModel st argv
      else (st, succeeded [])
    else (st, refused)
  sysctl := fun st _ _ => (st, none)

/-- An argument vector without a NUL byte; Go's `os/exec` refuses the others. -/
def nulFree (argv : List Str) : Bool :=
  argv.all (fun a => !a.elem (Char.ofNat 0))

/-- The machine of the model that starts the argument vectors without a NUL
byte. -/
def modelWorld : World Store := storeWorld nulFree

/-- The client of the model. -/
def modelClient : EBTables := ⟨str "/sbin/ebtables"⟩

/-- Start of a run on a machine: no command was run yet. -/
def start {σ : Type} (st : σ) : Sys σ := ⟨st, []⟩

/-- `AppendUnique` of the same rule, `n` times in a row, stopping at the first
call that returns an error. -/
def appendUniqueTimes {σ : Type} (w : World σ) (ebt : EBTables) (table chain : Str)
    (rule : Strings) (n : Nat) : Go σ (Option GoError) :=
  match n with
  | 0 => pure none
  | k + 1 => do
    match ← ebt.AppendUnique w table chain rule with
    | some err => return some err
    | none => appendUniqueTimes w ebt table chain rule k

/-- The rules that `List` returns, or none when it fails or panics. -/
def listed {σ : Type} (w : World σ) (ebt : EBTables) (table chain : Str) (s : Sys σ) :
    Option (List Str) :=
  match (ebt.List w table chain s).2 with
  | Res.ret (rules, none) => some rules
  | _ => none

/-! ## Definitions used in the statements -/

/-- The argument vector of a command of the client. -/
def argvOf (ebt : EBTables) (args : List Str) : List Str :=
  ebt.path :: str "--concurrent" :: args

/-- What the machine answers to a command in a state. -/
def outcome {σ : Type} (w : World σ) (s : Sys σ) (path : Str) (args : List Str) : CmdOut :=
  (w.run s.world path args).2

/-- The state after a command was run. -/
def afterRun {σ : Type} (w : World σ) (s : Sys σ) (path : Str) (args : List Str) : Sys σ :=
  ⟨(w.run s.world path args).1, s.trace ++ [⟨path, args⟩]⟩

/-- The error that the client makes of the outcome of a command. -/
def errOf (o : CmdOut) : Res (Option GoError) :=
  match o.err with
  | none => Res.ret none
  | some (RunErr.exit c) => Res.ret (some (GoError.ebt c o.stderr))
  | some (RunErr.other _) => Res.panic

/-- The rules that `List` reads in the text of a listing. -/
def parseRules (out : Str) : List Str := (split out '\n').foldl listStep []

/-- No white space at the start and none at the end. -/
def noSpaceAtEnds (r : Str) : Prop :=
  (∀ c, r.head? = some c → isSpace c = false) ∧ (∀ c, r.getLast? = some c → isSpace c = false)

/-- The lines that `List` keeps, in the words of its description: split on
newline, trim each line, drop the empty lines and the header lines. -/
def listSpec (out : Str) : List Str :=
  ((split out '\n').map trimSpace).filter
    (fun r => !(r == [] || hasPrefix r (str "Bridge")))

/-- A rule string that `List` reads back as it is: not empty, on one line,
without white space at its ends, and not taken for a header line. -/
def readBack (r : Str) : Prop :=
  r ≠ [] ∧ '\n' ∉ r ∧ noSpaceAtEnds r ∧ hasPrefix r (str "Bridge") = false

/-- A listing of a chain with two rules, with the header of the table and of
the chain, and with white space around the second rule. -/
def sampleListing : Str :=
  str "Bridge table: filter\n\nBridge chain: test, entries: 2, policy: ACCEPT\n" ++
  str "-p IPv4 -s 4e:4f:41:48:0:0 -o veth+ --ip-src 10.1.1.1 -j ACCEPT\n" ++
  str "  -j DROP \n"

/-- The command of the client with the given operation arguments. -/
def invocationOf (ebt : EBTables) (args : List Str) : Invocation :=
  ⟨ebt.path, [ebt.path, str "--concurrent"] ++ args⟩

/-- The outcome of a command whose binary could not be started. -/
def notStarted : CmdOut :=
  ⟨[], [], some (RunErr.other (str "fork/exec /sbin/ebtables: permission denied"))⟩

/-- The three `AppendUnique` of `AddDedupRules`, in the words of its
description: the accept rule and then the drop rule on the dedup chain, then
the jump on the OUTPUT chain, stopping at the first error. -/
def appendDedupRules {σ : Type} (w : World σ) (ebt : EBTables) (pre : List Str) (ip nw : Str) :
    Go σ (Option GoError) := do
  match ← ebt.AppendUnique w filterTable dedupChain (pre ++ [ip, str "-j", str "ACCEPT"]) with
  | some err => return some err
  | none =>
    match ← ebt.AppendUnique w filterTable dedupChain (pre ++ [nw, str "-j", str "DROP"]) with
    | some err => return some err
    | none =>
      match ← ebt.AppendUnique w filterTable outputChain [str "-j", dedupChain] with
      | some err => return some err
      | none => return none

/-- A machine whose commands answer by a script: each `cmd.Run()` takes the next
outcome of the script, and succeeds in silence once the script is used up. -/
def scriptWorld : World (List CmdOut) where
  lookPath := fun _ file => Except.ok (str "/sbin/" ++ file)
  run := fun script _ _ =>
    match script with
    | [] => ([], succeeded [])
    | o :: rest => (rest, o)
  sysctl := fun script _ _ => (script, none)

/-- The accept rule of `AddDedupRules`, as one string. -/
def acceptRule (mac ip : Str) : Str :=
  join (common_args mac ++ [ip, str "-j", str "ACCEPT"]) (str " ")

/-- The drop rule of `AddDedupRules`, as one string. -/
def dropRule (mac nw : Str) : Str :=
  join (common_args mac ++ [nw, str "-j", str "DROP"]) (str " ")

/-- The jump rule of `AddDedupRules`, as one string. -/
def jumpRule : Str := join [str "-j", dedupChain] (str " ")

/-- The rules that an `AppendUnique` adds to a chain with the rules `rs`. -/
def added (rs : List Str) (r : Str) : List Str :=
  if r ∈ parseRules (listing rs) then [] else [r]

/-- The outcome of creating a chain that exists. -/
def chainExists : CmdOut :=
  ⟨[], str "Chain CNI-DEDUP already exists.\n", some (RunErr.exit 255)⟩

/-- The outcome of a command that was refused for lack of permission. -/
def notPermitted : CmdOut :=
  ⟨[], str "Operation not permitted.\n", some (RunErr.exit 255)⟩

/-- `AddDedupRules` with the same arguments, twice in a row: the two errors. -/
def addDedupRulesTwice {σ : Type} (w : World σ) (mac ip nw : Str) :
    Go σ (Option GoError × Option GoError) := do
  let e1 ← AddDedupRules w mac ip nw
  let e2 ← AddDedupRules w mac ip nw
  return (e1, e2)

/-- The outcome of deleting a jump to a chain that does not exist. -/
def targetGone : CmdOut :=
  ⟨[], str "Illegal target name 'CNI-DEDUP'.\n", some (RunErr.exit 255)⟩

/-- A run that stopped in a panic after a command that was not started. -/
def stoppedAtRefused {α : Type} (starts : List Str → Bool) (r : Sys Store × Res α) : Prop :=
  r.2 = Res.panic ∧ ∃ inv ∈ r.1.trace, starts inv.args = false

/-- Go `strings.Fields`: the pieces of a text between white space. -/
def fields (s : Str) : List Str :=
  (split (s.map fun c => if isSpace c then ' ' else c) ' ').filter fun t => !(t == [])

/-- Is `a` directly followed by `b` in a list of tokens. -/
def adjacent (ts : List Str) (a b : Str) : Bool :=
  match ts with
  | x :: y :: rest => (x == a && y == b) || adjacent (y :: rest) a b
  | _ => false

/-- A rule that jumps to a chain: among its tokens, `-j` followed by the name of
the chain. -/
def jumpsTo (chain : Str) (r : Str) : Bool :=
  adjacent (fields r) (str "-j") chain

/-! ## Lemmas -/

theorem Go.pure_apply {σ α : Type} (a : α) (s : Sys σ) : (pure a : Go σ α) s = (s, Res.ret a) := rfl

theorem Go.bind_apply {σ α β : Type} (m : Go σ α) (f : α → Go σ β) (s : Sys σ) :
    (m >>= f) s = match m s with
      | (s', Res.ret a) => f a s'
      | (s', Res.panic) => (s', Res.panic) := rfl

theorem runWithOutput_apply {σ : Type} (w : World σ) (ebt : EBTables) (args : List Str) (s : Sys σ) :
    ebt.runWithOutput w args s =
      (afterRun w s ebt.path (argvOf ebt args),
        match errOf (outcome w s ebt.path (argvOf ebt args)) with
        | Res.ret e => Res.ret ((outcome w s ebt.path (argvOf ebt args)).stdout, e)
        | Res.panic => Res.panic) := by
  simp only [EBTables.runWithOutput, Go.bind_apply, cmdRun, afterRun, List.cons_append,
    List.nil_append, errOf, outcome, argvOf]
  cases h : (w.run s.world ebt.path (ebt.path :: str "--concurrent" :: args)).2.err with
  | none => rfl
  | some e => cases e <;> rfl

theorem run_apply {σ : Type} (w : World σ) (ebt : EBTables) (args : List Str) (s : Sys σ) :
    ebt.run w args s =
      (afterRun w s ebt.path (argvOf ebt args), errOf (outcome w s ebt.path (argvOf ebt args))) := by
  simp only [EBTables.run, Go.bind_apply, runWithOutput_apply]
  cases errOf (outcome w s ebt.path (argvOf ebt args)) <;> rfl

theorem List_apply {σ : Type} (w : World σ) (ebt : EBTables) (table chain : Str) (s : Sys σ) :
    ebt.List w table chain s =
      (afterRun w s ebt.path (argvOf ebt [str "-t", table, str "-L", chain, str "--Lmac2"]),
        match errOf (outcome w s ebt.path
            (argvOf ebt [str "-t", table, str "-L", chain, str "--Lmac2"])) with
        | Res.ret none => Res.ret (parseRules (outcome w s ebt.path
            (argvOf ebt [str "-t", table, str "-L", chain, str "--Lmac2"])).stdout, none)
        | Res.ret (some e) => Res.ret ([], some e)
        | Res.panic => Res.panic) := by
  simp only [EBTables.List, Go.bind_apply, runWithOutput_apply, parseRules]
  cases errOf (outcome w s ebt.path
    (argvOf ebt [str "-t", table, str "-L", chain, str "--Lmac2"])) with
  | panic => rfl
  | ret e => cases e <;> rfl

theorem existsLoop_eq (rules : List Str) (rule : List Str) :
    existsLoop rules rule = decide (join rule (str " ") ∈ rules) := by
  induction rules with
  | nil => simp [existsLoop]
  | cons r rs ih =>
    simp only [existsLoop, ih, List.mem_cons]
    generalize join rule (str " ") = j
    by_cases h : r = j
    · simp [h]
    · have h' : ¬ j = r := fun e => h e.symm
      simp [h, h']

theorem Exists_apply {σ : Type} (w : World σ) (ebt : EBTables) (table chain : Str)
    (rule : Strings) (s : Sys σ) :
    ebt.Exists w table chain rule s =
      ((ebt.List w table chain s).1,
        match (ebt.List w table chain s).2 with
        | Res.ret (rules, none) => Res.ret (decide (join rule (str " ") ∈ rules), none)
        | Res.ret (_, some e) => Res.ret (false, some e)
        | Res.panic => Res.panic) := by
  simp only [EBTables.Exists, Go.bind_apply, existsLoop_eq]
  rcases h : ebt.List w table chain s with ⟨s', r⟩
  cases r with
  | panic => rfl
  | ret a =>
    rcases a with ⟨rules, e⟩
    cases e <;> rfl

theorem AppendUnique_apply {σ : Type} (w : World σ) (ebt : EBTables) (table chain : Str)
    (rule : Strings) (s : Sys σ) :
    ebt.AppendUnique w table chain rule s =
      match (ebt.Exists w table chain rule s).2 with
      | Res.ret (false, none) => ebt.Append w table chain rule (ebt.Exists w table chain rule s).1
      | Res.ret (true, none) => ((ebt.Exists w table chain rule s).1, Res.ret none)
      | Res.ret (_, some e) => ((ebt.Exists w table chain rule s).1, Res.ret (some e))
      | Res.panic => ((ebt.Exists w table chain rule s).1, Res.panic) := by
  simp only [EBTables.AppendUnique, Go.bind_apply]
  rcases h : ebt.Exists w table chain rule s with ⟨s', r⟩
  cases r with
  | panic => rfl
  | ret a =>
    rcases a with ⟨b, e⟩
    cases e with
    | some e => cases b <;> rfl
    | none => cases b <;> rfl

theorem trimSpace_eq_rdropWhile (s : Str) :
    trimSpace s = (s.dropWhile isSpace).rdropWhile isSpace := rfl

theorem trimSpace_noSpaceAtEnds (s : Str) : noSpaceAtEnds (trimSpace s) := by
  constructor
  · intro c hc
    rw [trimSpace_eq_rdropWhile] at hc
    obtain ⟨t, ht⟩ := List.rdropWhile_prefix isSpace (l := s.dropWhile isSpace)
    have hd := List.head?_dropWhile_not isSpace s
    cases hr : (s.dropWhile isSpace).rdropWhile isSpace with
    | nil => rw [hr] at hc; simp at hc
    | cons a as =>
      rw [hr] at hc ht
      simp only [List.head?_cons, Option.some.injEq] at hc
      rw [← ht] at hd
      simpa [hc] using hd
  · intro c hc
    rw [trimSpace_eq_rdropWhile] at hc
    have hne : (s.dropWhile isSpace).rdropWhile isSpace ≠ [] := by
      intro h; rw [h] at hc; simp at hc
    have := List.rdropWhile_last_not isSpace (s.dropWhile isSpace) hne
    rw [List.getLast?_eq_getLast _ hne] at hc
    simp only [Option.some.injEq] at hc
    rw [hc] at this
    simpa using this

theorem trimSpace_eq_self {r : Str} (h : noSpaceAtEnds r) : trimSpace r = r := by
  rw [trimSpace_eq_rdropWhile]
  have h1 : r.dropWhile isSpace = r := by
    cases r with
    | nil => rfl
    | cons a as =>
      have := h.1 a rfl
      simp [List.dropWhile_cons, this]
  rw [h1, List.rdropWhile_eq_self_iff]
  intro hl
  have := h.2 (r.getLast hl) (List.getLast?_eq_getLast _ hl)
  simp [this]

theorem split_ne_nil (s : Str) (sep : Char) : split s sep ≠ [] := by
  cases s with
  | nil => simp [split]
  | cons c cs =>
    simp only [split]
    split
    · simp
    · split <;> simp

theorem split_cons_sep (cs : Str) (sep : Char) : split (sep :: cs) sep = [] :: split cs sep := by
  simp [split]

theorem split_cons_ne {c sep : Char} (h : c ≠ sep) (cs : Str) :
    split (c :: cs) sep = (c :: (split cs sep).head!) :: (split cs sep).tail := by
  cases hs : split cs sep with
  | nil => exact absurd hs (split_ne_nil cs sep)
  | cons l ls => simp [split, h, hs]

theorem split_append_sep (a b : Str) (sep : Char) :
    split (a ++ sep :: b) sep = split a sep ++ split b sep := by
  induction a with
  | nil => simp [split]
  | cons c cs ih =>
    by_cases hc : c = sep
    · subst hc
      rw [List.cons_append, split_cons_sep, split_cons_sep, ih, List.cons_append]
    · rw [List.cons_append, split_cons_ne hc, split_cons_ne hc, ih]
      cases h : split cs sep with
      | nil => exact absurd h (split_ne_nil cs sep)
      | cons l ls => simp

theorem split_of_not_mem {s : Str} {sep : Char} (h : sep ∉ s) : split s sep = [s] := by
  induction s with
  | nil => rfl
  | cons c cs ih =>
    simp only [List.mem_cons, not_or] at h
    have hc : ¬ c = sep := fun e => h.1 e.symm
    simp [split, hc, ih h.2]

theorem foldl_listStep (lines acc : List Str) :
    lines.foldl listStep acc = acc ++ (lines.map trimSpace).filter
      (fun r => !(r == [] || hasPrefix r (str "Bridge"))) := by
  induction lines generalizing acc with
  | nil => simp
  | cons l ls ih =>
    simp only [List.foldl_cons, ih, List.map_cons, List.filter_cons, listStep]
    generalize (str "Bridge") = hdr
    by_cases h1 : hasPrefix (trimSpace l) hdr = true
    · simp [h1]
    · by_cases h2 : trimSpace l = []
      · simp [h2]
      · simp [h1, h2]

theorem parseRules_eq_listSpec (out : Str) : parseRules out = listSpec out := by
  simp [parseRules, listSpec, foldl_listStep]

theorem parseRules_nil : parseRules [] = [] := by decide

theorem parseRules_append_newline (a b : Str) :
    parseRules (a ++ '\n' :: b) = parseRules a ++ parseRules b := by
  simp [parseRules_eq_listSpec, listSpec, split_append_sep]

theorem parseRules_of_readBack {r : Str} (h : readBack r) : parseRules r = [r] := by
  obtain ⟨h1, h2, h3, h4⟩ := h
  rw [parseRules_eq_listSpec, listSpec, split_of_not_mem h2]
  simp only [List.map_cons, List.map_nil, trimSpace_eq_self h3, List.filter_cons, List.filter_nil]
  generalize (str "Bridge") = hdr at h4
  simp [h1, h4]

theorem listing_append (rs : List Str) (r : Str) :
    listing (rs ++ [r]) = listing rs ++ (r ++ ['\n']) := by
  induction rs with
  | nil => simp [listing]
  | cons x xs ih => simp [listing, ih]

theorem parseRules_listing_cons (x : Str) (rs : List Str) :
    parseRules (listing (x :: rs)) = parseRules x ++ parseRules (listing rs) := by
  simp only [listing]
  exact parseRules_append_newline _ _

theorem parseRules_listing_append (rs : List Str) (r : Str) :
    parseRules (listing (rs ++ [r])) = parseRules (listing rs) ++ parseRules r := by
  induction rs with
  | nil =>
    simp only [List.nil_append, parseRules_listing_cons]
    simp [listing, parseRules_nil]
  | cons x xs ih =>
    rw [List.cons_append, parseRules_listing_cons, ih, parseRules_listing_cons, List.append_assoc]

/-! ### `strings.Contains` -/

theorem contains_cons_of_ne (c : Char) (s : Str) (n : Char) (ns : Str) (h : n ≠ c) :
    contains (c :: s) (n :: ns) = contains s (n :: ns) := by
  simp [contains, List.isPrefixOf, h]

theorem contains_append_of_not_mem (pre s : Str) (n : Char) (ns : Str) (h : n ∉ pre) :
    contains (pre ++ s) (n :: ns) = contains s (n :: ns) := by
  induction pre with
  | nil => rfl
  | cons c cs ih =>
    simp only [List.mem_cons, not_or] at h
    rw [List.cons_append, contains_cons_of_ne _ _ _ _ h.1, ih h.2]

theorem contains_cons_cons_of_ne (c c2 : Char) (s : Str) (n n2 : Char) (ns : Str) (h : n2 ≠ c2) :
    contains (c :: c2 :: s) (n :: n2 :: ns) = contains (c2 :: s) (n :: n2 :: ns) := by
  simp [contains, List.isPrefixOf, h]

theorem contains_append_of_second_not_mem (pre s : Str) (l : Char) (n n2 : Char) (ns : Str)
    (h : n2 ∉ pre) (hl : n ≠ l) (h2 : n2 ≠ l) :
    contains (pre ++ l :: s) (n :: n2 :: ns) = contains s (n :: n2 :: ns) := by
  induction pre with
  | nil => simp [contains_cons_of_ne _ _ _ _ hl]
  | cons c cs ih =>
    simp only [List.mem_cons, not_or] at h
    rw [List.cons_append]
    cases cs with
    | nil =>
      rw [List.nil_append, contains_cons_cons_of_ne _ _ _ _ _ _ h2]
      simpa using ih h.2
    | cons c2 cs2 =>
      have hc2 : n2 ≠ c2 := by
        have := h.2
        simp only [List.mem_cons, not_or] at this
        exact this.1
      rw [List.cons_append, contains_cons_cons_of_ne _ _ _ _ _ _ hc2]
      simpa using ih h.2

/-! ### The digits of a number -/

theorem digitChar_ne (d : Nat) (h : d < 10) : Nat.digitChar d ≠ 'l' ∧ Nat.digitChar d ≠ 'I' := by
  interval_cases d <;> decide

theorem toDigitsCore_ne (fuel n : Nat) (ds : List Char)
    (h : ∀ c ∈ ds, c ≠ 'l' ∧ c ≠ 'I') :
    ∀ c ∈ Nat.toDigitsCore 10 fuel n ds, c ≠ 'l' ∧ c ≠ 'I' := by
  induction fuel generalizing n ds with
  | zero => simpa [Nat.toDigitsCore] using h
  | succ k ih =>
    have hd : ∀ c ∈ Nat.digitChar (n % 10) :: ds, c ≠ 'l' ∧ c ≠ 'I' := by
      intro c hc
      rcases List.mem_cons.mp hc with rfl | hc
      · exact digitChar_ne _ (Nat.mod_lt _ (by decide))
      · exact h c hc
    simp only [Nat.toDigitsCore]
    split_ifs
    · exact hd
    · exact ih _ _ hd

theorem itoa_ne (n : Int) : ∀ c ∈ itoa n, c ≠ 'l' ∧ c ≠ 'I' := by
  cases n with
  | ofNat m =>
    exact toDigitsCore_ne _ _ _ (by simp)
  | negSucc m =>
    intro c hc
    simp only [itoa, List.mem_cons] at hc
    rcases hc with rfl | hc
    · decide
    · exact toDigitsCore_ne _ _ _ (by simp) c hc

theorem Error_prefix_ne (status : Int) :
    ∀ c ∈ (str "exit status ") ++ itoa status ++ [':'], c ≠ 'l' ∧ c ≠ 'I' := by
  intro c hc
  simp only [List.mem_append] at hc
  rcases hc with (hc | hc) | hc
  · revert c; decide
  · exact itoa_ne status c hc
  · revert c; decide

theorem contains_Error_already_exists (status : Int) (msg : Str) :
    contains (GoError.ebt status msg).Error (str "already exists")
      = contains msg (str "already exists") := by
  have h := Error_prefix_ne status
  have e : (GoError.ebt status msg).Error
      = ((str "exit status ") ++ itoa status ++ [':']) ++ ' ' :: msg := by
    show _ ++ str ": " ++ msg = _
    have : str ": " = [':', ' '] := rfl
    simp [this]
  rw [e]
  exact contains_append_of_second_not_mem _ _ ' ' 'a' 'l' _ (fun hm => (h _ hm).1 rfl)
    (by decide) (by decide)

theorem contains_Error_illegal_target (status : Int) (msg : Str) :
    contains (GoError.ebt status msg).Error (str "Illegal target name")
      = contains msg (str "Illegal target name") := by
  have h := Error_prefix_ne status
  have e : (GoError.ebt status msg).Error
      = ((str "exit status ") ++ itoa status ++ [':'] ++ [' ']) ++ msg := by
    show _ ++ str ": " ++ msg = _
    have : str ": " = [':', ' '] := rfl
    simp [this]
  rw [e]
  refine contains_append_of_not_mem _ _ 'I' _ ?_
  intro hm
  rcases List.mem_append.mp hm with hm | hm
  · exact (h _ hm).2 rfl
  · revert hm; decide

/-- C1. When the listing command succeeds, `List` returns the lines of its
stdout, split on newline and trimmed, without the lines that are then empty or
begin with "Bridge" (the header lines), in their order; so no returned rule is
empty, has white space at its start or end, or begins with "Bridge". -/
theorem List_returns_trimmed_rule_lines {σ : Type} (w : World σ) (ebt : EBTables)
    (table chain : Str) (s : Sys σ) (o : CmdOut)
    (hrun : (w.run s.world ebt.path
      [ebt.path, str "--concurrent", str "-t", table, str "-L", chain,
        (str "--Lmac2")]).2 = o)
    (hok : o.err = none) :
    (ebt.List w table chain s).2 = Res.ret (listSpec o.stdout, none) ∧
    ∀ r ∈ listSpec o.stdout,
      r ≠ [] ∧ noSpaceAtEnds r ∧ hasPrefix r (str "Bridge") = false := by
  constructor
  · rw [List_apply]
    simp only [outcome, argvOf, hrun, errOf, hok, parseRules_eq_listSpec]
  · intro r hr
    simp only [listSpec, List.mem_filter, List.mem_map, Bool.not_eq_true', Bool.or_eq_false_iff,
      beq_eq_false_iff_ne] at hr
    obtain ⟨⟨l, -, rfl⟩, hne, hpre⟩ := hr
    exact ⟨hne, trimSpace_noSpaceAtEnds l, hpre⟩

/-- Witness of C1: the two rules of the sample listing. -/
theorem List_returns_trimmed_rule_lines_witness :
    (succeeded sampleListing).err = none ∧
    (modelClient.List scriptWorld (str "filter") (str "test")
        (start [succeeded sampleListing])).2 =
      Res.ret ([str "-p IPv4 -s 4e:4f:41:48:0:0 -o veth+ --ip-src 10.1.1.1 -j ACCEPT",
        str "-j DROP"], none) :=
  ⟨rfl, (List_returns_trimmed_rule_lines scriptWorld modelClient (str "filter") (str "test")
    (start [succeeded sampleListing]) (succeeded sampleListing) rfl rfl).1.trans (by decide)⟩

/-- C2. When `List` returns rules and no error, `Exists` returns (true, nil) if
and only if one of the rules is the rule tokens joined by single spaces, and
(false, nil) otherwise; when `List` returns an error, `Exists` returns false with
that error. On a chain that lists "-p IPv4 -j ACCEPT", the tokens -p IPv4 -j
ACCEPT are found, and the tokens -j ACCEPT -p IPv4 are not found on account of
it: they are found only when their own joined string is listed. -/
theorem Exists_iff_joined_rule_listed {σ : Type} (w : World σ) (ebt : EBTables)
    (table chain : Str) (rule : Strings) (s : Sys σ) :
    (∀ rules, (ebt.List w table chain s).2 = Res.ret (rules, none) →
      ((ebt.Exists w table chain rule s).2 = Res.ret (true, none) ↔
        ∃ r ∈ rules, r = join rule (str " ")) ∧
      ((ebt.Exists w table chain rule s).2 = Res.ret (false, none) ↔
        ¬ ∃ r ∈ rules, r = join rule (str " "))) ∧
    (∀ rules err, (ebt.List w table chain s).2 = Res.ret (rules, some err) →
      (ebt.Exists w table chain rule s).2 = Res.ret (false, some err)) ∧
    (∀ rules, (ebt.List w table chain s).2 = Res.ret (rules, none) →
      (str "-p IPv4 -j ACCEPT") ∈ rules →
      (ebt.Exists w table chain [str "-p", str "IPv4", str "-j", str "ACCEPT"] s).2
        = Res.ret (true, none) ∧
      ((ebt.Exists w table chain [str "-j", str "ACCEPT", str "-p", str "IPv4"] s).2
        = Res.ret (true, none) ↔ (str "-j ACCEPT -p IPv4") ∈ rules) ∧
      ((∀ r ∈ rules, r = (str "-p IPv4 -j ACCEPT")) →
        (ebt.Exists w table chain [str "-j", str "ACCEPT", str "-p", str "IPv4"] s).2
          = Res.ret (false, none))) := by
  refine ⟨?_, ?_, ?_⟩
  · intro rules h
    rw [Exists_apply, h]
    by_cases hm : join rule (str " ") ∈ rules <;> simp [hm]
  · intro rules err h
    rw [Exists_apply, h]
  · intro rules h hin
    rw [Exists_apply, Exists_apply, h]
    have j1 : join [str "-p", str "IPv4", str "-j", str "ACCEPT"] (str " ")
        = (str "-p IPv4 -j ACCEPT") := by decide
    have j2 : join [str "-j", str "ACCEPT", str "-p", str "IPv4"] (str " ")
        = (str "-j ACCEPT -p IPv4") := by decide
    simp only [j1, j2]
    have hne : (str "-j ACCEPT -p IPv4") ≠ (str "-p IPv4 -j ACCEPT") := by decide
    generalize (str "-p IPv4 -j ACCEPT") = x at hin hne ⊢
    generalize (str "-j ACCEPT -p IPv4") = y at hne ⊢
    refine ⟨by simp [hin], by simp, ?_⟩
    intro hall
    have : y ∉ rules := fun hm => hne (hall _ hm)
    simp [this]

/-- Witness of C2: on a chain with the one rule "-p IPv4 -j ACCEPT", the tokens
in the order of the rule are found and the tokens in another order are not. -/
theorem Exists_iff_joined_rule_listed_witness :
    (modelClient.Exists modelWorld (str "filter") (str "test")
      [str "-p", str "IPv4", str "-j", str "ACCEPT"]
      (start (Store.empty.set (str "filter") (str "test") [str "-p IPv4 -j ACCEPT"]))).2
      = Res.ret (true, none) ∧
    (modelClient.Exists modelWorld (str "filter") (str "test")
      [str "-j", str "ACCEPT", str "-p", str "IPv4"]
      (start (Store.empty.set (str "filter") (str "test") [str "-p IPv4 -j ACCEPT"]))).2
      = Res.ret (false, none) :=
  have h := (Exists_iff_joined_rule_listed modelWorld modelClient (str "filter") (str "test") []
    (start (Store.empty.set (str "filter") (str "test") [str "-p IPv4 -j ACCEPT"]))).2.2
    [str "-p IPv4 -j ACCEPT"] (by decide) (by decide)
  ⟨h.1, h.2.2 (by decide)⟩

theorem run_trace {σ : Type} (w : World σ) (ebt : EBTables) (args : List Str) (s : Sys σ) :
    (ebt.run w args s).1.trace = s.trace ++ [invocationOf ebt args] := by
  rw [run_apply]; rfl

theorem List_trace {σ : Type} (w : World σ) (ebt : EBTables) (table chain : Str) (s : Sys σ) :
    (ebt.List w table chain s).1.trace = s.trace ++
      [invocationOf ebt [str "-t", table, str "-L", chain, str "--Lmac2"]] := by
  rw [List_apply]; rfl

theorem New_ok {σ : Type} (w : World σ) (s s' : Sys σ) (ebt : EBTables)
    (h : New w s = (s', Res.ret (some ebt, none))) :
    w.lookPath s.world (str "ebtables") = Except.ok ebt.path ∧
    ∃ modprobe, s'.trace = s.trace ++ [⟨modprobe, [modprobe, str "br-netfilter"]⟩] := by
  cases h1 : w.lookPath s.world (str "ebtables") with
  | error e =>
    simp only [New, Go.bind_apply, lookPath, h1, Go.pure_apply] at h
    cases h
  | ok path =>
    cases h2 : w.lookPath s.world (str "modprobe") with
    | error e =>
      simp only [New, Go.bind_apply, lookPath, h1, h2, Go.pure_apply] at h
      cases h
    | ok modprobe =>
      cases h3 : (w.run s.world modprobe [modprobe, str "br-netfilter"]).2.err with
      | some e =>
        simp only [New, Go.bind_apply, lookPath, h1, h2, cmdRun, h3] at h
        cases e with
        | exit c => simp only [toError, Go.pure_apply] at h; cases h
        | other t => simp only [toError, goPanic] at h; cases h
      | none =>
        simp only [New, Go.bind_apply, lookPath, h1, h2, cmdRun, h3, sysctlSet] at h
        cases h4 : (w.sysctl (w.run s.world modprobe [modprobe, str "br-netfilter"]).1
            sysctlBridgeCallIPTables (str "1")).2 with
        | some e => simp only [h4, Go.pure_apply] at h; cases h
        | none =>
          simp only [h4, Go.pure_apply] at h
          cases h
          exact ⟨rfl, modprobe, rfl⟩

/-- C8. Every command that `List`, `Exists`, `Insert`, `Append`, `AppendUnique`,
`Delete`, `NewChain` and `DeleteChain` run is the client's path with the argument
vector path, "--concurrent", then the arguments of the operation, unchanged and
in order; the path is the one that `New` looked up for "ebtables". -/
theorem commands_start_with_concurrent {σ : Type} (w : World σ) (ebt : EBTables)
    (table chain : Str) (pos : Int) (rule : Strings) (s : Sys σ) :
    (ebt.List w table chain s).1.trace = s.trace ++
      [⟨ebt.path, [ebt.path, str "--concurrent"] ++
        [str "-t", table, str "-L", chain, str "--Lmac2"]⟩] ∧
    (ebt.Exists w table chain rule s).1.trace = s.trace ++
      [⟨ebt.path, [ebt.path, str "--concurrent"] ++
        [str "-t", table, str "-L", chain, str "--Lmac2"]⟩] ∧
    (ebt.Insert w table chain pos rule s).1.trace = s.trace ++
      [⟨ebt.path, [ebt.path, str "--concurrent"] ++
        ([str "-t", table, str "-I", chain, itoa pos] ++ rule)⟩] ∧
    (ebt.Append w table chain rule s).1.trace = s.trace ++
      [⟨ebt.path, [ebt.path, str "--concurrent"] ++
        ([str "-t", table, str "-A", chain] ++ rule)⟩] ∧
    ((ebt.AppendUnique w table chain rule s).1.trace = s.trace ++
      [⟨ebt.path, [ebt.path, str "--concurrent"] ++
        [str "-t", table, str "-L", chain, str "--Lmac2"]⟩] ∨
     (ebt.AppendUnique w table chain rule s).1.trace = s.trace ++
      [⟨ebt.path, [ebt.path, str "--concurrent"] ++
        [str "-t", table, str "-L", chain, str "--Lmac2"]⟩,
       ⟨ebt.path, [ebt.path, str "--concurrent"] ++
        ([str "-t", table, str "-A", chain] ++ rule)⟩]) ∧
    (ebt.Delete w table chain rule s).1.trace = s.trace ++
      [⟨ebt.path, [ebt.path, str "--concurrent"] ++
        ([str "-t", table, str "-D", chain] ++ rule)⟩] ∧
    (ebt.NewChain w table chain s).1.trace = s.trace ++
      [⟨ebt.path, [ebt.path, str "--concurrent"] ++
        [str "-t", table, str "-N", chain]⟩] ∧
    (ebt.DeleteChain w table chain s).1.trace = s.trace ++
      [⟨ebt.path, [ebt.path, str "--concurrent"] ++
        [str "-t", table, str "-X", chain]⟩] ∧
    (∀ s0 : Sys σ, New w s0 = (s, Res.ret (some ebt, none)) →
      w.lookPath s0.world (str "ebtables") = Except.ok ebt.path) := by
  refine ⟨List_trace w ebt table chain s, ?_, run_trace w ebt _ s, run_trace w ebt _ s, ?_,
    run_trace w ebt _ s, run_trace w ebt _ s, run_trace w ebt _ s,
    fun s0 h => (New_ok w s0 s ebt h).1⟩
  · rw [Exists_apply]; exact List_trace w ebt table chain s
  · have hE : (ebt.Exists w table chain rule s).1.trace = s.trace ++
        [invocationOf ebt [str "-t", table, str "-L", chain, str "--Lmac2"]] := by
      rw [Exists_apply]; exact List_trace w ebt table chain s
    rw [AppendUnique_apply]
    rcases hr : (ebt.Exists w table chain rule s).2 with ⟨b, e⟩ | _
    · cases b <;> cases e
      · right
        show (ebt.Append w table chain rule _).1.trace = _
        simp only [EBTables.Append]
        rw [run_trace, hE]
        simp [invocationOf]
      · left; exact hE
      · left; exact hE
      · left; exact hE
    · left; exact hE

/-- Witness of C8: the commands of an `AppendUnique` on an empty chain. -/
theorem commands_start_with_concurrent_witness :
    (modelClient.AppendUnique modelWorld (str "filter") (str "OUTPUT")
      [str "-j", str "CNI-DEDUP"] (start Store.empty)).1.trace =
      [⟨str "/sbin/ebtables", [str "/sbin/ebtables", str "--concurrent", str "-t",
          str "filter", str "-L", str "OUTPUT", str "--Lmac2"]⟩,
       ⟨str "/sbin/ebtables", [str "/sbin/ebtables", str "--concurrent", str "-t",
          str "filter", str "-A", str "OUTPUT", str "-j", str "CNI-DEDUP"]⟩] :=
  ((commands_start_with_concurrent modelWorld modelClient (str "filter") (str "OUTPUT") 1
    [str "-j", str "CNI-DEDUP"] (start Store.empty)).2.2.2.2.1.resolve_left (by decide))

/-- C10. What `runWithOutput` makes of the three outcomes of `cmd.Run()`: nil
on exit status 0; the error with the exit status and the stderr when the process
ran and failed; and a panic, in the type assertion on the error, when the error
is not an `*exec.ExitError` (the process could not be started). -/
theorem runWithOutput_outcomes {σ : Type} (w : World σ) (ebt : EBTables) (args : List Str)
    (s : Sys σ) (o : CmdOut)
    (hrun : (w.run s.world ebt.path ([ebt.path, str "--concurrent"] ++ args)).2 = o) :
    (o.err = none → (ebt.runWithOutput w args s).2 = Res.ret (o.stdout, none)) ∧
    (∀ c, o.err = some (RunErr.exit c) →
      (ebt.runWithOutput w args s).2 = Res.ret (o.stdout, some (GoError.ebt c o.stderr))) ∧
    (∀ t, o.err = some (RunErr.other t) → (ebt.runWithOutput w args s).2 = Res.panic) := by
  refine ⟨?_, ?_, ?_⟩
  · intro h
    rw [runWithOutput_apply]
    simp only [outcome, argvOf, errOf]
    simp only [List.cons_append, List.nil_append] at hrun
    rw [hrun, h]
  · intro c h
    rw [runWithOutput_apply]
    simp only [outcome, argvOf, errOf]
    simp only [List.cons_append, List.nil_append] at hrun
    rw [hrun, h]
  · intro t h
    rw [runWithOutput_apply]
    simp only [outcome, argvOf, errOf]
    simp only [List.cons_append, List.nil_append] at hrun
    rw [hrun, h]

/-- Witness of C10: when the ebtables binary cannot be started, `runWithOutput`
panics, and so does `AddDedupRules` at the creation of the chain; when modprobe
cannot be started, `New` panics. -/
theorem runWithOutput_panics_when_not_started :
    notStarted.err = some (RunErr.other (str "fork/exec /sbin/ebtables: permission denied")) ∧
    (modelClient.runWithOutput scriptWorld [str "-t", str "filter", str "-N", str "CNI-DEDUP"]
      (start [notStarted])).2 = Res.panic ∧
    (New scriptWorld (start [notStarted])).2 = Res.panic ∧
    (AddDedupRules scriptWorld (str "4e:4f:41:48:00:00") (str "10.1.1.1") (str "10.1.1.0/24")
      (start [succeeded [], notStarted])).2 = Res.panic :=
  ⟨rfl, (runWithOutput_outcomes scriptWorld modelClient _ (start [notStarted]) notStarted
    rfl).2.2 _ rfl, by decide, by decide⟩

theorem goAppend_accept (mac ip : Str) :
    (goAppend (sliceLit (common_args mac)) [ip, str "-j", str "ACCEPT"]).1.elems
      = common_args mac ++ [ip, str "-j", str "ACCEPT"] ∧
    (goAppend (sliceLit (common_args mac)) [ip, str "-j", str "ACCEPT"]).2
      = sliceLit (common_args mac) := by
  simp [goAppend, sliceLit, common_args, Slice.elems]

theorem goAppend_drop (mac nw : Str) :
    (goAppend (sliceLit (common_args mac)) [nw, str "-j", str "DROP"]).1.elems
      = common_args mac ++ [nw, str "-j", str "DROP"] := by
  simp [goAppend, sliceLit, common_args, Slice.elems]

theorem AddDedupRules_apply {σ : Type} (w : World σ) (mac ip nw : Str) (s s1 : Sys σ)
    (ebt : EBTables) (hnew : New w s = (s1, Res.ret (some ebt, none))) :
    AddDedupRules w mac ip nw s =
      match (ebt.NewChain w filterTable dedupChain s1).2 with
      | Res.ret (some err) =>
        if contains err.Error (str "already exists") then
          appendDedupRules w ebt (common_args mac) ip nw (ebt.NewChain w filterTable dedupChain s1).1
        else ((ebt.NewChain w filterTable dedupChain s1).1, Res.ret (some err))
      | Res.ret none =>
        appendDedupRules w ebt (common_args mac) ip nw (ebt.NewChain w filterTable dedupChain s1).1
      | Res.panic => ((ebt.NewChain w filterTable dedupChain s1).1, Res.panic) := by
  simp only [AddDedupRules, Go.bind_apply, hnew, (goAppend_accept mac ip).1,
    (goAppend_accept mac ip).2, goAppend_drop]
  rcases hc : ebt.NewChain w filterTable dedupChain s1 with ⟨s2, r⟩
  cases r with
  | panic => rfl
  | ret e =>
    cases e with
    | none => rfl
    | some err =>
      by_cases hex : contains err.Error (str "already exists") = true
      · simp only [hex, if_true, Bool.not_true]
        rfl
      · simp only [hex, if_false, Bool.not_eq_true] at hex ⊢
        simp only [hex, Bool.not_false, if_true, Go.pure_apply]
        rfl

theorem DeleteDedupRules_apply {σ : Type} (w : World σ) (s s1 : Sys σ)
    (ebt : EBTables) (hnew : New w s = (s1, Res.ret (some ebt, none))) :
    DeleteDedupRules w s =
      match (ebt.Delete w filterTable outputChain [str "-j", dedupChain] s1).2 with
      | Res.ret (some err) =>
        ((ebt.Delete w filterTable outputChain [str "-j", dedupChain] s1).1,
          Res.ret (if contains err.Error (str "Illegal target name") then none else some err))
      | Res.ret none =>
        match (ebt.DeleteChain w filterTable dedupChain
            (ebt.Delete w filterTable outputChain [str "-j", dedupChain] s1).1).2 with
        | Res.ret (some err) =>
          ((ebt.DeleteChain w filterTable dedupChain
            (ebt.Delete w filterTable outputChain [str "-j", dedupChain] s1).1).1,
            Res.ret (if contains err.Error (str "Illegal target name") then none else some err))
        | Res.ret none =>
          ((ebt.DeleteChain w filterTable dedupChain
            (ebt.Delete w filterTable outputChain [str "-j", dedupChain] s1).1).1, Res.ret none)
        | Res.panic =>
          ((ebt.DeleteChain w filterTable dedupChain
            (ebt.Delete w filterTable outputChain [str "-j", dedupChain] s1).1).1, Res.panic)
      | Res.panic =>
        ((ebt.Delete w filterTable outputChain [str "-j", dedupChain] s1).1, Res.panic) := by
  simp only [DeleteDedupRules, Go.bind_apply, hnew]
  rcases hd : ebt.Delete w filterTable outputChain [str "-j", dedupChain] s1 with ⟨s2, r⟩
  cases r with
  | panic => rfl
  | ret e =>
    cases e with
    | some err =>
      by_cases hex : contains err.Error (str "Illegal target name") = true
      · simp only [hex, if_true]; rfl
      · simp only [hex, if_false]; rfl
    | none =>
      simp only [Go.bind_apply]
      rcases hx : ebt.DeleteChain w filterTable dedupChain s2 with ⟨s3, r⟩
      cases r with
      | panic => rfl
      | ret e =>
        cases e with
        | none => rfl
        | some err =>
          by_cases hex : contains err.Error (str "Illegal target name") = true
          · simp only [hex, if_true]; rfl
          · simp only [hex, if_false]; rfl

theorem rules_set_same (st : Store) (t c : Str) (rs : List Str) :
    (st.set t c rs).rules t c = some rs := by
  simp [Store.rules, Store.set]

theorem rules_set_other (st : Store) (t c t' c' : Str) (rs : List Str)
    (h : ¬ (t' = t ∧ c' = c)) : (st.set t c rs).rules t' c' = st.rules t' c' := by
  simp [Store.rules, Store.set, h]

theorem join_cons_cons (x y : Str) (rest : List Str) (sep : Str) :
    join (x :: y :: rest) sep = x ++ sep ++ join (y :: rest) sep := rfl

theorem mem_join {c : Char} {xs : List Str} {sep : Str} (h : c ∈ join xs sep) :
    c ∈ sep ∨ ∃ x ∈ xs, c ∈ x := by
  induction xs with
  | nil => simp [join] at h
  | cons x rest ih =>
    cases rest with
    | nil => exact Or.inr ⟨x, by simp, by simpa [join] using h⟩
    | cons y rest =>
      rw [join_cons_cons] at h
      simp only [List.mem_append] at h
      rcases h with (h | h) | h
      · exact Or.inr ⟨x, by simp, h⟩
      · exact Or.inl h
      · rcases ih h with h | ⟨z, hz, hc⟩
        · exact Or.inl h
        · exact Or.inr ⟨z, List.mem_cons_of_mem _ hz, hc⟩

theorem join_append_singleton (xs : List Str) (y sep : Str) (h : xs ≠ []) :
    join (xs ++ [y]) sep = join xs sep ++ sep ++ y := by
  induction xs with
  | nil => exact absurd rfl h
  | cons x rest ih =>
    cases rest with
    | nil => rfl
    | cons z rest =>
      rw [List.cons_append, List.cons_append, join_cons_cons, join_cons_cons,
        ← List.cons_append, ih (by simp)]
      simp [List.append_assoc]

theorem readBack_of {r : Str} {a b : Char} (h1 : r.head? = some a) (h2 : r.getLast? = some b)
    (ha : isSpace a = false) (hb : isSpace b = false) (hnl : '\n' ∉ r)
    (hpre : hasPrefix r (str "Bridge") = false) : readBack r := by
  refine ⟨?_, hnl, ⟨?_, ?_⟩, hpre⟩
  · intro h; rw [h] at h1; simp at h1
  · intro c hc; rw [h1] at hc; cases hc; exact ha
  · intro c hc; rw [h2] at hc; cases hc; exact hb

theorem acceptRule_getLast (mac ip : Str) : (acceptRule mac ip).getLast? = some 'T' := by
  have : common_args mac ++ [ip, str "-j", str "ACCEPT"]
      = (common_args mac ++ [ip, str "-j"]) ++ [str "ACCEPT"] := by simp
  rw [acceptRule, this, join_append_singleton _ _ _ (by simp [common_args])]
  rw [List.getLast?_append_of_ne_nil _ (by decide)]
  rfl

theorem dropRule_getLast (mac nw : Str) : (dropRule mac nw).getLast? = some 'P' := by
  have : common_args mac ++ [nw, str "-j", str "DROP"]
      = (common_args mac ++ [nw, str "-j"]) ++ [str "DROP"] := by simp
  rw [dropRule, this, join_append_singleton _ _ _ (by simp [common_args])]
  rw [List.getLast?_append_of_ne_nil _ (by decide)]
  rfl

theorem acceptRule_ne_dropRule (mac ip nw : Str) : acceptRule mac ip ≠ dropRule mac nw := by
  intro h
  have h1 := acceptRule_getLast mac ip
  rw [h, dropRule_getLast] at h1
  exact absurd h1 (by decide)

theorem not_mem_rule {mac x : Str} {a b : Str} (hmac : '\n' ∉ mac) (hx : '\n' ∉ x)
    (ha : '\n' ∉ a) (hb : '\n' ∉ b) :
    '\n' ∉ join (common_args mac ++ [x, a, b]) (str " ") := by
  intro h
  rcases mem_join h with h | ⟨t, ht, hc⟩
  · revert h; decide
  · simp only [common_args, List.cons_append, List.nil_append, List.mem_cons, List.mem_singleton,
      List.mem_nil_iff, or_false] at ht
    rcases ht with rfl | rfl | rfl | rfl | rfl | rfl | rfl | rfl | rfl | rfl
    all_goals first
      | exact hmac hc
      | exact hx hc
      | exact ha hc
      | exact hb hc
      | (revert hc; decide)

theorem readBack_acceptRule {mac ip : Str} (hmac : '\n' ∉ mac) (hip : '\n' ∉ ip) :
    readBack (acceptRule mac ip) :=
  readBack_of (a := '-') rfl (acceptRule_getLast mac ip) (by decide) (by decide)
    (not_mem_rule hmac hip (by decide) (by decide)) rfl

theorem readBack_dropRule {mac nw : Str} (hmac : '\n' ∉ mac) (hnw : '\n' ∉ nw) :
    readBack (dropRule mac nw) :=
  readBack_of (a := '-') rfl (dropRule_getLast mac nw) (by decide) (by decide)
    (not_mem_rule hmac hnw (by decide) (by decide)) rfl

theorem readBack_jumpRule : readBack jumpRule :=
  readBack_of (a := '-') (b := 'P') rfl rfl (by decide) (by decide) (by decide) rfl

theorem rules_output (st : Store) : ∃ rs, st.rules filterTable outputChain = some rs := by
  unfold Store.rules
  cases st.chains filterTable outputChain with
  | some rs => exact ⟨rs, rfl⟩
  | none => exact ⟨[], rfl⟩

theorem dedup_ne_output : ¬ (filterTable = filterTable ∧ dedupChain = outputChain) := by decide

theorem output_ne_dedup : ¬ (filterTable = filterTable ∧ outputChain = dedupChain) := by decide

theorem NewChain_apply {σ : Type} (w : World σ) (ebt : EBTables) (s1 : Sys σ) (o : CmdOut)
    (hrun : (w.run s1.world ebt.path [ebt.path, str "--concurrent", str "-t", str "filter",
      str "-N", str "CNI-DEDUP"]).2 = o) :
    ebt.NewChain w filterTable dedupChain s1 =
      (⟨(w.run s1.world ebt.path [ebt.path, str "--concurrent", str "-t", str "filter",
          str "-N", str "CNI-DEDUP"]).1,
        s1.trace ++ [⟨ebt.path, [ebt.path, str "--concurrent", str "-t", str "filter",
          str "-N", str "CNI-DEDUP"]⟩]⟩, errOf o) := by
  simp only [EBTables.NewChain]
  rw [run_apply, ← hrun]
  rfl

/-- C4. When the creation of the chain CNI-DEDUP in the table filter fails
with exit status `c` and stderr `msg`: the text of the error contains "already
exists" exactly when `msg` does; when it does, `AddDedupRules` goes on with the
three `AppendUnique`; when it does not, `AddDedupRules` returns that error, and
the module load and the creation of the chain are the only commands it ran. -/
theorem AddDedupRules_chain_exists {σ : Type} (w : World σ) (mac ip nw : Str) (s s1 : Sys σ)
    (ebt : EBTables) (c : Int) (msg : Str) (o : CmdOut)
    (hnew : New w s = (s1, Res.ret (some ebt, none)))
    (hrun : (w.run s1.world ebt.path [ebt.path, str "--concurrent", str "-t", str "filter",
      str "-N", str "CNI-DEDUP"]).2 = o)
    (herr : o.err = some (RunErr.exit c)) (hmsg : o.stderr = msg) :
    contains (GoError.ebt c msg).Error (str "already exists")
      = contains msg (str "already exists") ∧
    (contains msg (str "already exists") = true →
      AddDedupRules w mac ip nw s =
        appendDedupRules w ebt (common_args mac) ip nw
          (ebt.NewChain w filterTable dedupChain s1).1) ∧
    (contains msg (str "already exists") = false →
      (AddDedupRules w mac ip nw s).2 = Res.ret (some (GoError.ebt c msg)) ∧
      ∃ modprobe, (AddDedupRules w mac ip nw s).1.trace = s.trace ++
        [⟨modprobe, [modprobe, str "br-netfilter"]⟩,
         ⟨ebt.path, [ebt.path, str "--concurrent", str "-t", str "filter", str "-N",
          str "CNI-DEDUP"]⟩]) := by
  have hN := NewChain_apply w ebt s1 o hrun
  have hE : errOf o = Res.ret (some (GoError.ebt c msg)) := by
    simp only [errOf, herr, hmsg]
  rw [hE] at hN
  refine ⟨contains_Error_already_exists c msg, ?_, ?_⟩
  · intro hc
    rw [AddDedupRules_apply w mac ip nw s s1 ebt hnew, hN]
    simp only [contains_Error_already_exists, hc, if_true]
  · intro hc
    obtain ⟨-, m, hm⟩ := New_ok w s s1 ebt hnew
    rw [AddDedupRules_apply w mac ip nw s s1 ebt hnew, hN]
    simp only [contains_Error_already_exists, hc, Bool.false_eq_true, if_false]
    exact ⟨trivial, m, by simp [hm]⟩

/-- Witness of C4: the stderr "Chain CNI-DEDUP already exists." is taken for
success and the rules are appended; the stderr "Operation not permitted." is
returned, after the module load and the creation of the chain and no other
command. -/
theorem AddDedupRules_chain_exists_witness :
    (AddDedupRules scriptWorld (str "4e:4f:41:48:00:00") (str "10.1.1.1") (str "10.1.1.0/24")
        (start [succeeded [], chainExists])
      = appendDedupRules scriptWorld modelClient (common_args (str "4e:4f:41:48:00:00"))
          (str "10.1.1.1") (str "10.1.1.0/24")
          (modelClient.NewChain scriptWorld filterTable dedupChain
            ⟨[chainExists], [⟨str "/sbin/modprobe",
              [str "/sbin/modprobe", str "br-netfilter"]⟩]⟩).1) ∧
    ((AddDedupRules scriptWorld (str "4e:4f:41:48:00:00") (str "10.1.1.1") (str "10.1.1.0/24")
        (start [succeeded [], notPermitted])).2
      = Res.ret (some (GoError.ebt 255 (str "Operation not permitted.\n")))) :=
  ⟨(AddDedupRules_chain_exists scriptWorld (str "4e:4f:41:48:00:00") (str "10.1.1.1")
      (str "10.1.1.0/24") (start [succeeded [], chainExists]) _ modelClient 255 _ chainExists
      rfl rfl rfl rfl).2.1 (by decide),
   ((AddDedupRules_chain_exists scriptWorld (str "4e:4f:41:48:00:00") (str "10.1.1.1")
      (str "10.1.1.0/24") (start [succeeded [], notPermitted])
      ⟨[notPermitted], [⟨str "/sbin/modprobe", [str "/sbin/modprobe", str "br-netfilter"]⟩]⟩
      modelClient 255 _ notPermitted rfl rfl rfl rfl).2.2 (by decide)).1⟩

theorem appendDedupRules_ok {σ : Type} (w : World σ) (ebt : EBTables) (pre : List Str)
    (ip nw : Str) (s2 s' : Sys σ)
    (h : appendDedupRules w ebt pre ip nw s2 = (s', Res.ret none)) :
    ∃ s3 s4,
      ebt.AppendUnique w filterTable dedupChain (pre ++ [ip, str "-j", str "ACCEPT"]) s2
        = (s3, Res.ret none) ∧
      ebt.AppendUnique w filterTable dedupChain (pre ++ [nw, str "-j", str "DROP"]) s3
        = (s4, Res.ret none) ∧
      ebt.AppendUnique w filterTable outputChain [str "-j", dedupChain] s4
        = (s', Res.ret none) := by
  simp only [appendDedupRules, Go.bind_apply] at h
  rcases h1 : ebt.AppendUnique w filterTable dedupChain (pre ++ [ip, str "-j", str "ACCEPT"]) s2
    with ⟨s3, r1⟩
  rw [h1] at h
  cases r1 with
  | panic => cases h
  | ret e1 =>
    cases e1 with
    | some err => simp only [Go.pure_apply] at h; cases h
    | none =>
      simp only [Go.bind_apply] at h
      rcases h2 : ebt.AppendUnique w filterTable dedupChain (pre ++ [nw, str "-j", str "DROP"]) s3
        with ⟨s4, r2⟩
      rw [h2] at h
      cases r2 with
      | panic => cases h
      | ret e2 =>
        cases e2 with
        | some err => simp only [Go.pure_apply] at h; cases h
        | none =>
          simp only [Go.bind_apply] at h
          rcases h3 : ebt.AppendUnique w filterTable outputChain [str "-j", dedupChain] s4
            with ⟨s5, r3⟩
          rw [h3] at h
          cases r3 with
          | panic => cases h
          | ret e3 =>
            cases e3 with
            | some err => simp only [Go.pure_apply] at h; cases h
            | none =>
              simp only [Go.pure_apply] at h
              cases h
              exact ⟨s3, s4, rfl, h2, h3⟩

theorem AddDedupRules_ok {σ : Type} (w : World σ) (mac ip nw : Str) (s s' : Sys σ)
    (h : AddDedupRules w mac ip nw s = (s', Res.ret none)) :
    ∃ ebt s1 s2 s3 s4 e,
      New w s = (s1, Res.ret (some ebt, none)) ∧
      ebt.NewChain w filterTable dedupChain s1 = (s2, Res.ret e) ∧
      ebt.AppendUnique w filterTable dedupChain
        (common_args mac ++ [ip, str "-j", str "ACCEPT"]) s2 = (s3, Res.ret none) ∧
      ebt.AppendUnique w filterTable dedupChain
        (common_args mac ++ [nw, str "-j", str "DROP"]) s3 = (s4, Res.ret none) ∧
      ebt.AppendUnique w filterTable outputChain [str "-j", dedupChain] s4
        = (s', Res.ret none) := by
  rcases hN : New w s with ⟨s1, r⟩
  cases r with
  | panic => simp only [AddDedupRules, Go.bind_apply, hN] at h; cases h
  | ret a =>
    rcases a with ⟨oe, err⟩
    cases err with
    | some err => simp only [AddDedupRules, Go.bind_apply, hN, Go.pure_apply] at h; cases h
    | none =>
      cases oe with
      | none => simp only [AddDedupRules, Go.bind_apply, hN, goPanic] at h; cases h
      | some ebt =>
        rw [AddDedupRules_apply w mac ip nw s s1 ebt hN] at h
        rcases hC : ebt.NewChain w filterTable dedupChain s1 with ⟨s2, r⟩
        rw [hC] at h
        cases r with
        | panic => cases h
        | ret e =>
          cases e with
          | none =>
            obtain ⟨s3, s4, h1, h2, h3⟩ := appendDedupRules_ok w ebt _ ip nw s2 s' h
            exact ⟨ebt, s1, s2, s3, s4, none, rfl, hC, h1, h2, h3⟩
          | some err =>
            by_cases hc : contains err.Error (str "already exists") = true
            · simp only [hc, if_true] at h
              obtain ⟨s3, s4, h1, h2, h3⟩ := appendDedupRules_ok w ebt _ ip nw s2 s' h
              exact ⟨ebt, s1, s2, s3, s4, some err, rfl, hC, h1, h2, h3⟩
            · simp only [hc, if_false] at h
              cases h

theorem parseRules_listing_nil : parseRules (listing []) = [] := by decide

theorem parseRules_listing_pair {a b : Str} (ha : readBack a) (hb : readBack b) :
    parseRules (listing [a, b]) = [a, b] := by
  rw [parseRules_listing_cons, parseRules_listing_cons, parseRules_listing_nil,
    parseRules_of_readBack ha, parseRules_of_readBack hb]
  rfl

theorem parseRules_listing_single {a : Str} (ha : readBack a) :
    parseRules (listing [a]) = [a] := by
  rw [parseRules_listing_cons, parseRules_listing_nil, parseRules_of_readBack ha]
  rfl

theorem added_nil (r : Str) : added [] r = [r] := by
  simp [added, parseRules_listing_nil]

/-- C9, amended. The common prefix that `AddDedupRules` builds is, for every
mac, -p IPv4 -s mac -o veth+ --ip-src: the wildcard of the output interface is
"veth+". Once the client is constructed and the chain is created, `AddDedupRules`
is the three `AppendUnique` with this prefix. -/
theorem common_prefix_is_veth_plus {σ : Type} (w : World σ) (mac ip nw : Str) (s s1 : Sys σ)
    (ebt : EBTables) (hnew : New w s = (s1, Res.ret (some ebt, none)))
    (hchain : (ebt.NewChain w filterTable dedupChain s1).2 = Res.ret none) :
    common_args mac
      = [str "-p", str "IPv4", str "-s", mac, str "-o", str "veth+", str "--ip-src"] ∧
    AddDedupRules w mac ip nw s =
      appendDedupRules w ebt
        [str "-p", str "IPv4", str "-s", mac, str "-o", str "veth+", str "--ip-src"] ip nw
        (ebt.NewChain w filterTable dedupChain s1).1 := by
  refine ⟨rfl, ?_⟩
  rw [AddDedupRules_apply w mac ip nw s s1 ebt hnew, hchain]
  rfl

/-- Witness of C9, amended: on the store with only the built-in chains. -/
theorem common_prefix_is_veth_plus_witness :
    common_args (str "4e:4f:41:48:00:00")
      = [str "-p", str "IPv4", str "-s", str "4e:4f:41:48:00:00", str "-o", str "veth+",
          str "--ip-src"] ∧
    AddDedupRules modelWorld (str "4e:4f:41:48:00:00") (str "10.1.1.1") (str "10.1.1.0/24")
        (start Store.empty) =
      appendDedupRules modelWorld modelClient
        [str "-p", str "IPv4", str "-s", str "4e:4f:41:48:00:00", str "-o", str "veth+",
          str "--ip-src"] (str "10.1.1.1") (str "10.1.1.0/24")
        (modelClient.NewChain modelWorld filterTable dedupChain
          ⟨Store.empty, [⟨str "/sbin/modprobe",
            [str "/sbin/modprobe", str "br-netfilter"]⟩]⟩).1 :=
  common_prefix_is_veth_plus modelWorld (str "4e:4f:41:48:00:00") (str "10.1.1.1")
    (str "10.1.1.0/24") (start Store.empty) _ modelClient rfl (by decide)

/-- Counterexample to C9: for the mac of the tests the common prefix is not the
one with "veth*", and the rules that `AddDedupRules` leaves in the dedup chain
of the model are the ones with "veth+". -/
theorem common_prefix_is_not_veth_star :
    common_args (str "4e:4f:41:48:00:00")
      ≠ [str "-p", str "IPv4", str "-s", str "4e:4f:41:48:00:00", str "-o", str "veth*",
          str "--ip-src"] ∧
    (AddDedupRules modelWorld (str "4e:4f:41:48:00:00") (str "10.1.1.1") (str "10.1.1.0/24")
      (start Store.empty)).1.world.rules filterTable dedupChain
      = some [str "-p IPv4 -s 4e:4f:41:48:00:00 -o veth+ --ip-src 10.1.1.1 -j ACCEPT",
          str "-p IPv4 -s 4e:4f:41:48:00:00 -o veth+ --ip-src 10.1.1.0/24 -j DROP"] := by
  decide

theorem bind_stopped {α β : Type} (sb : List Str → Bool) (m : Go Store α) (f : α → Go Store β)
    (s : Sys Store) (h : stoppedAtRefused sb (m s)) : stoppedAtRefused sb ((m >>= f) s) := by
  rw [Go.bind_apply]
  rcases hm : m s with ⟨s', r⟩
  rw [hm] at h
  obtain ⟨h1, h2⟩ := h
  simp only at h1
  subst h1
  exact ⟨rfl, h2⟩

theorem bind_ret {σ α β : Type} (m : Go σ α) (f : α → Go σ β) (s s' : Sys σ) (a : α)
    (h : m s = (s', Res.ret a)) : (m >>= f) s = f a s' := by
  rw [Go.bind_apply, h]

theorem storeWorld_run_started (sb : List Str → Bool) (st : Store) (argv : List Str)
    (h : sb argv = true) :
    (storeWorld sb).run st modelClient.path argv = ebtablesModel st argv := by
  simp [storeWorld, modelClient, h]

theorem storeWorld_run_refused (sb : List Str → Bool) (st : Store) (path : Str)
    (argv : List Str) (h : ¬ sb argv = true) :
    (storeWorld sb).run st path argv = (st, refused) := by
  simp [storeWorld, h]

theorem model_run_refused (sb : List Str → Bool) (args : List Str) (s : Sys Store)
    (h : ¬ sb (argvOf modelClient args) = true) :
    stoppedAtRefused sb (modelClient.run (storeWorld sb) args s) := by
  rw [run_apply]
  simp only [outcome, afterRun, storeWorld_run_refused sb _ _ _ h]
  refine ⟨rfl, ⟨modelClient.path, argvOf modelClient args⟩, by simp, ?_⟩
  simpa using h

theorem model_List_refused (sb : List Str → Bool) (t c : Str) (s : Sys Store)
    (h : ¬ sb (argvOf modelClient [str "-t", t, str "-L", c, str "--Lmac2"]) = true) :
    stoppedAtRefused sb (modelClient.List (storeWorld sb) t c s) := by
  rw [List_apply]
  simp only [outcome, afterRun, storeWorld_run_refused sb _ _ _ h]
  refine ⟨rfl, ⟨modelClient.path,
    argvOf modelClient [str "-t", t, str "-L", c, str "--Lmac2"]⟩, by simp, ?_⟩
  simpa using h

theorem model_List (sb : List Str → Bool) (s : Sys Store) (t c : Str) (rs : List Str)
    (h : s.world.rules t c = some rs)
    (hs : sb (argvOf modelClient [str "-t", t, str "-L", c, str "--Lmac2"]) = true) :
    ∃ tr, modelClient.List (storeWorld sb) t c s
      = (⟨s.world, tr⟩, Res.ret (parseRules (listing rs), none)) := by
  refine ⟨s.trace ++ [⟨modelClient.path,
    argvOf modelClient [str "-t", t, str "-L", c, str "--Lmac2"]⟩], ?_⟩
  rw [List_apply]
  have e : (storeWorld sb).run s.world modelClient.path
      (argvOf modelClient [str "-t", t, str "-L", c, str "--Lmac2"])
      = (s.world, succeeded (listing rs)) := by
    rw [storeWorld_run_started sb _ _ hs]
    simp only [argvOf, ebtablesModel, modelClient, and_self, if_true, h]
  simp only [outcome, afterRun, e, errOf, succeeded]

theorem model_List_missing (sb : List Str → Bool) (s : Sys Store) (t c : Str)
    (h : s.world.rules t c = none)
    (hs : sb (argvOf modelClient [str "-t", t, str "-L", c, str "--Lmac2"]) = true) :
    ∃ tr e, modelClient.List (storeWorld sb) t c s = (⟨s.world, tr⟩, Res.ret ([], some e)) := by
  refine ⟨s.trace ++ [⟨modelClient.path,
    argvOf modelClient [str "-t", t, str "-L", c, str "--Lmac2"]⟩],
    GoError.ebt 255 (str "Chain " ++ c ++ str " doesn't exist.\n"), ?_⟩
  rw [List_apply]
  have e : (storeWorld sb).run s.world modelClient.path
      (argvOf modelClient [str "-t", t, str "-L", c, str "--Lmac2"])
      = (s.world, failed (str "Chain " ++ c ++ str " doesn't exist.\n")) := by
    rw [storeWorld_run_started sb _ _ hs]
    simp only [argvOf, ebtablesModel, modelClient, and_self, if_true, h]
  simp only [outcome, afterRun, e, errOf, failed]

theorem model_Append (sb : List Str → Bool) (s : Sys Store) (t c : Str) (rule : Strings)
    (rs : List Str) (h : s.world.rules t c = some rs)
    (hs : sb (argvOf modelClient ([str "-t", t, str "-A", c] ++ rule)) = true) :
    ∃ tr, modelClient.Append (storeWorld sb) t c rule s
      = (⟨s.world.set t c (rs ++ [join rule (str " ")]), tr⟩, Res.ret none) := by
  refine ⟨s.trace ++ [⟨modelClient.path,
    argvOf modelClient ([str "-t", t, str "-A", c] ++ rule)⟩], ?_⟩
  simp only [EBTables.Append]
  rw [run_apply]
  have hLA : ¬ (str "-A" = str "-L") := by decide
  have hNA : ¬ (str "-A" = str "-N") := by decide
  have e : (storeWorld sb).run s.world modelClient.path
      (argvOf modelClient ([str "-t", t, str "-A", c] ++ rule))
      = (s.world.set t c (rs ++ [join rule (str " ")]), succeeded []) := by
    rw [storeWorld_run_started sb _ _ hs]
    simp only [argvOf, List.cons_append, List.nil_append, ebtablesModel, modelClient, and_self,
      if_true, h, hLA, hNA, false_and, if_false]
  simp only [outcome, afterRun, e, errOf, succeeded]

theorem model_NewChain_fresh (sb : List Str → Bool) (s : Sys Store) (t c : Str)
    (h : s.world.rules t c = none)
    (hs : sb (argvOf modelClient [str "-t", t, str "-N", c]) = true) :
    ∃ tr, modelClient.NewChain (storeWorld sb) t c s
      = (⟨s.world.set t c [], tr⟩, Res.ret none) := by
  refine ⟨s.trace ++ [⟨modelClient.path,
    argvOf modelClient [str "-t", t, str "-N", c]⟩], ?_⟩
  simp only [EBTables.NewChain]
  rw [run_apply]
  have hLN : ¬ (str "-N" = str "-L") := by decide
  have e : (storeWorld sb).run s.world modelClient.path
      (argvOf modelClient [str "-t", t, str "-N", c])
      = (s.world.set t c [], succeeded []) := by
    rw [storeWorld_run_started sb _ _ hs]
    simp only [argvOf, ebtablesModel, modelClient, and_self,
      if_true, h, hLN, false_and, if_false]
  simp only [outcome, afterRun, e, errOf, succeeded]

theorem model_NewChain_exists (sb : List Str → Bool) (s : Sys Store) (t c : Str)
    (rs : List Str) (h : s.world.rules t c = some rs)
    (hs : sb (argvOf modelClient [str "-t", t, str "-N", c]) = true) :
    ∃ tr, modelClient.NewChain (storeWorld sb) t c s
      = (⟨s.world, tr⟩, Res.ret (some (GoError.ebt 255
          (str "Chain " ++ c ++ str " already exists.\n")))) := by
  refine ⟨s.trace ++ [⟨modelClient.path,
    argvOf modelClient [str "-t", t, str "-N", c]⟩], ?_⟩
  simp only [EBTables.NewChain]
  rw [run_apply]
  have hLN : ¬ (str "-N" = str "-L") := by decide
  have e : (storeWorld sb).run s.world modelClient.path
      (argvOf modelClient [str "-t", t, str "-N", c])
      = (s.world, failed (str "Chain " ++ c ++ str " already exists.\n")) := by
    rw [storeWorld_run_started sb _ _ hs]
    simp only [argvOf, ebtablesModel, modelClient, and_self,
      if_true, h, hLN, false_and, if_false]
  simp only [outcome, afterRun, e, errOf, failed]

theorem model_New (sb : List Str → Bool) (s : Sys Store) :
    New (storeWorld sb) s = (⟨s.world, s.trace ++
        [⟨str "/sbin/modprobe", [str "/sbin/modprobe", str "br-netfilter"]⟩]⟩,
        Res.ret (some modelClient, none)) ∨
      stoppedAtRefused sb (New (storeWorld sb) s) := by
  have hp : ∀ f : Str, (storeWorld sb).lookPath s.world f = Except.ok (str "/sbin/" ++ f) :=
    fun _ => rfl
  have he : str "/sbin/" ++ str "ebtables" = str "/sbin/ebtables" := by decide
  have hm : str "/sbin/" ++ str "modprobe" = str "/sbin/modprobe" := by decide
  by_cases h : sb [str "/sbin/modprobe", str "br-netfilter"] = true
  · left
    have hr : (storeWorld sb).run s.world (str "/sbin/modprobe")
        [str "/sbin/modprobe", str "br-netfilter"] = (s.world, succeeded []) := by
      have hne : ¬ (str "/sbin/modprobe" = str "/sbin/ebtables") := by decide
      simp [storeWorld, h, hne]
    simp only [New, Go.bind_apply, lookPath, hp, he, hm, cmdRun, hr, succeeded, sysctlSet,
      Go.pure_apply]
    rfl
  · right
    have hr := storeWorld_run_refused sb s.world (str "/sbin/modprobe") _ h
    simp only [New, Go.bind_apply, lookPath, hp, he, hm, cmdRun, hr, refused, toError, goPanic]
    refine ⟨rfl, ⟨str "/sbin/modprobe", [str "/sbin/modprobe", str "br-netfilter"]⟩,
      by simp, ?_⟩
    simpa using h

theorem model_listed (sb : List Str → Bool) (s : Sys Store) (t c : Str) (rs : List Str)
    (h : s.world.rules t c = some rs)
    (hs : sb (argvOf modelClient [str "-t", t, str "-L", c, str "--Lmac2"]) = true) :
    listed (storeWorld sb) modelClient t c s = some (parseRules (listing rs)) := by
  obtain ⟨tr1, h1⟩ := model_List sb s t c rs h hs
  simp only [listed, h1]

theorem model_listed_missing (sb : List Str → Bool) (s : Sys Store) (t c : Str)
    (h : s.world.rules t c = none) :
    listed (storeWorld sb) modelClient t c s = none := by
  by_cases hs : sb (argvOf modelClient [str "-t", t, str "-L", c, str "--Lmac2"]) = true
  · obtain ⟨tr1, e, h1⟩ := model_List_missing sb s t c h hs
    simp only [listed, h1]
  · have := (model_List_refused sb t c s hs).1
    simp only [listed, this]

theorem Exists_stopped (sb : List Str → Bool) (t c : Str) (rule : Strings) (s : Sys Store)
    (h : stoppedAtRefused sb (modelClient.List (storeWorld sb) t c s)) :
    stoppedAtRefused sb (modelClient.Exists (storeWorld sb) t c rule s) :=
  bind_stopped sb _ _ s h

theorem AppendUnique_stopped (sb : List Str → Bool) (t c : Str) (rule : Strings) (s : Sys Store)
    (h : stoppedAtRefused sb (modelClient.List (storeWorld sb) t c s)) :
    stoppedAtRefused sb (modelClient.AppendUnique (storeWorld sb) t c rule s) :=
  bind_stopped sb _ _ s (Exists_stopped sb t c rule s h)

theorem model_AppendUnique (sb : List Str → Bool) (s : Sys Store) (t c : Str) (rule : Strings)
    (rs : List Str) (h : s.world.rules t c = some rs) :
    (sb (argvOf modelClient [str "-t", t, str "-L", c, str "--Lmac2"]) = true ∧
      ∃ st tr, modelClient.AppendUnique (storeWorld sb) t c rule s = (⟨st, tr⟩, Res.ret none) ∧
        st.rules t c = some (rs ++ added rs (join rule (str " "))) ∧
        ∀ t' c', ¬ (t' = t ∧ c' = c) → st.rules t' c' = s.world.rules t' c') ∨
    stoppedAtRefused sb (modelClient.AppendUnique (storeWorld sb) t c rule s) := by
  by_cases hs : sb (argvOf modelClient [str "-t", t, str "-L", c, str "--Lmac2"]) = true
  · obtain ⟨tr1, h1⟩ := model_List sb s t c rs h hs
    by_cases hm : join rule (str " ") ∈ parseRules (listing rs)
    · left
      refine ⟨hs, s.world, tr1, ?_, by simp [added, hm, h], fun _ _ _ => rfl⟩
      rw [AppendUnique_apply, Exists_apply, h1]
      simp only [hm, decide_True]
    · have hE : modelClient.AppendUnique (storeWorld sb) t c rule s
          = modelClient.Append (storeWorld sb) t c rule ⟨s.world, tr1⟩ := by
        rw [AppendUnique_apply, Exists_apply, h1]
        simp only [hm, decide_False]
      by_cases ha : sb (argvOf modelClient ([str "-t", t, str "-A", c] ++ rule)) = true
      · left
        obtain ⟨tr2, h2⟩ := model_Append sb ⟨s.world, tr1⟩ t c rule rs h ha
        refine ⟨hs, _, tr2, hE.trans h2, by simp [added, hm, rules_set_same],
          fun t' c' hne => rules_set_other _ _ _ _ _ _ hne⟩
      · right
        rw [hE]
        exact model_run_refused sb _ _ ha
  · right
    exact AppendUnique_stopped sb t c rule s (model_List_refused sb t c s hs)

theorem model_AppendUnique_missing (sb : List Str → Bool) (s : Sys Store) (t c : Str)
    (rule : Strings) (h : s.world.rules t c = none) :
    (modelClient.AppendUnique (storeWorld sb) t c rule s).2 ≠ Res.ret none := by
  by_cases hs : sb (argvOf modelClient [str "-t", t, str "-L", c, str "--Lmac2"]) = true
  · obtain ⟨tr1, e, h1⟩ := model_List_missing sb s t c h hs
    rw [AppendUnique_apply, Exists_apply, h1]
    simp
  · rw [(AppendUnique_stopped sb t c rule s (model_List_refused sb t c s hs)).1]
    simp

theorem model_appendDedupRules (sb : List Str → Bool) (s : Sys Store) (mac ip nw : Str)
    (ds out0 : List Str)
    (hd : s.world.rules filterTable dedupChain = some ds)
    (ho : s.world.rules filterTable outputChain = some out0) :
    (sb (argvOf modelClient [str "-t", filterTable, str "-L", dedupChain, str "--Lmac2"]) = true ∧
      sb (argvOf modelClient [str "-t", filterTable, str "-L", outputChain, str "--Lmac2"])
        = true ∧
      ∃ st tr, appendDedupRules (storeWorld sb) modelClient (common_args mac) ip nw s
          = (⟨st, tr⟩, Res.ret none) ∧
        st.rules filterTable dedupChain = some ((ds ++ added ds (acceptRule mac ip)) ++
          added (ds ++ added ds (acceptRule mac ip)) (dropRule mac nw)) ∧
        st.rules filterTable outputChain = some (out0 ++ added out0 jumpRule)) ∨
    stoppedAtRefused sb
      (appendDedupRules (storeWorld sb) modelClient (common_args mac) ip nw s) := by
  unfold appendDedupRules
  rcases model_AppendUnique sb s filterTable dedupChain
    (common_args mac ++ [ip, str "-j", str "ACCEPT"]) ds hd with ⟨hsd, st1, tr1, e1, h1, o1⟩ | hb
  swap
  · exact Or.inr (bind_stopped sb _ _ s hb)
  rw [bind_ret _ _ s _ _ e1]
  rcases model_AppendUnique sb ⟨st1, tr1⟩ filterTable dedupChain
    (common_args mac ++ [nw, str "-j", str "DROP"]) _ h1 with ⟨-, st2, tr2, e2, h2, o2⟩ | hb
  swap
  · exact Or.inr (bind_stopped sb _ _ _ hb)
  simp only []
  rw [bind_ret _ _ _ _ _ e2]
  have ho2 : st2.rules filterTable outputChain = some out0 := by
    rw [o2 _ _ output_ne_dedup, o1 _ _ output_ne_dedup, ho]
  rcases model_AppendUnique sb ⟨st2, tr2⟩ filterTable outputChain
    [str "-j", dedupChain] out0 ho2 with ⟨hso, st3, tr3, e3, h3, o3⟩ | hb
  swap
  · exact Or.inr (bind_stopped sb _ _ _ hb)
  simp only []
  rw [bind_ret _ _ _ _ _ e3]
  left
  refine ⟨hsd, hso, st3, tr3, rfl, ?_, h3⟩
  rw [o3 _ _ dedup_ne_output]
  exact h2

theorem model_AddDedupRules (sb : List Str → Bool) (s : Sys Store) (mac ip nw : Str)
    (ds out0 : List Str)
    (hd : s.world.rules filterTable dedupChain = none ∧ ds = [] ∨
      s.world.rules filterTable dedupChain = some ds)
    (ho : s.world.rules filterTable outputChain = some out0) :
    (sb (argvOf modelClient [str "-t", filterTable, str "-L", dedupChain, str "--Lmac2"]) = true ∧
      sb (argvOf modelClient [str "-t", filterTable, str "-L", outputChain, str "--Lmac2"])
        = true ∧
      ∃ st tr, AddDedupRules (storeWorld sb) mac ip nw s = (⟨st, tr⟩, Res.ret none) ∧
        st.rules filterTable dedupChain = some ((ds ++ added ds (acceptRule mac ip)) ++
          added (ds ++ added ds (acceptRule mac ip)) (dropRule mac nw)) ∧
        st.rules filterTable outputChain = some (out0 ++ added out0 jumpRule)) ∨
    stoppedAtRefused sb (AddDedupRules (storeWorld sb) mac ip nw s) := by
  rcases model_New sb s with hN | hb
  swap
  · right
    unfold AddDedupRules
    exact bind_stopped sb _ _ s hb
  rw [AddDedupRules_apply (storeWorld sb) mac ip nw s _ modelClient hN]
  by_cases hs : sb (argvOf modelClient [str "-t", filterTable, str "-N", dedupChain]) = true
  · rcases hd with ⟨hd, rfl⟩ | hd
    · obtain ⟨tr, e⟩ := model_NewChain_fresh sb (Sys.mk s.world (s.trace ++
        [⟨str "/sbin/modprobe", [str "/sbin/modprobe", str "br-netfilter"]⟩]))
        filterTable dedupChain hd hs
      rw [e]
      exact model_appendDedupRules sb _ mac ip nw [] out0 (rules_set_same _ _ _ _)
        (by rw [← ho]; exact rules_set_other _ _ _ _ _ _ output_ne_dedup)
    · obtain ⟨tr, e⟩ := model_NewChain_exists sb (Sys.mk s.world (s.trace ++
        [⟨str "/sbin/modprobe", [str "/sbin/modprobe", str "br-netfilter"]⟩]))
        filterTable dedupChain ds hd hs
      rw [e]
      have hc : contains (GoError.ebt 255
          (str "Chain " ++ dedupChain ++ str " already exists.\n")).Error (str "already exists")
          = true := by
        rw [contains_Error_already_exists]; decide
      simp only [hc, if_true]
      exact model_appendDedupRules sb _ mac ip nw ds out0 hd ho
  · right
    have hb := model_run_refused sb [str "-t", filterTable, str "-N", dedupChain]
      (Sys.mk s.world (s.trace ++
        [⟨str "/sbin/modprobe", [str "/sbin/modprobe", str "br-netfilter"]⟩])) hs
    have hb' : stoppedAtRefused sb (modelClient.NewChain (storeWorld sb) filterTable dedupChain
      (Sys.mk s.world (s.trace ++
        [⟨str "/sbin/modprobe", [str "/sbin/modprobe", str "br-netfilter"]⟩]))) := hb
    rw [hb'.1]
    exact ⟨rfl, hb'.2⟩

theorem appendUniqueTimes_succ {σ : Type} (w : World σ) (ebt : EBTables) (t c : Str)
    (rule : Strings) (k : Nat) (s : Sys σ) :
    appendUniqueTimes w ebt t c rule (k + 1) s =
      match ebt.AppendUnique w t c rule s with
      | (s1, Res.ret none) => appendUniqueTimes w ebt t c rule k s1
      | (s1, Res.ret (some e)) => (s1, Res.ret (some e))
      | (s1, Res.panic) => (s1, Res.panic) := by
  simp only [appendUniqueTimes, Go.bind_apply]
  rcases ebt.AppendUnique w t c rule s with ⟨s1, r⟩
  cases r with
  | panic => rfl
  | ret e => cases e <;> rfl

theorem appendUniqueTimes_present (sb : List Str → Bool) (t c : Str) (rule : Strings)
    (rs : List Str) (hp : join rule (str " ") ∈ parseRules (listing rs)) (n : Nat) :
    ∀ (s s' : Sys Store), s.world.rules t c = some rs →
      appendUniqueTimes (storeWorld sb) modelClient t c rule n s = (s', Res.ret none) →
      s'.world.rules t c = some rs := by
  induction n with
  | zero =>
    intro s s' h hok
    simp only [appendUniqueTimes, Go.pure_apply] at hok
    cases hok
    exact h
  | succ k ih =>
    intro s s' h hok
    rw [appendUniqueTimes_succ] at hok
    rcases model_AppendUnique sb s t c rule rs h with ⟨-, st1, tr1, e1, h1, -⟩ | hb
    · rw [e1] at hok
      simp only [added, hp, if_true, List.append_nil] at h1
      exact ih ⟨st1, tr1⟩ s' h1 hok
    · rcases hA : modelClient.AppendUnique (storeWorld sb) t c rule s with ⟨s1, r⟩
      rw [hA] at hok hb
      have := hb.1
      simp only at this
      subst this
      cases hok

/-- C7. After the client is constructed, what `DeleteDedupRules` does for every
outcome of the deletion of the jump rule -j CNI-DEDUP from OUTPUT and of the
deletion of the chain. The deletion of the jump is its first command. When that
command cannot be started it panics; when it fails, `DeleteDedupRules` returns
nil if the text of the error contains "Illegal target name" and the error
otherwise, and runs no other command. When it succeeds the deletion of the chain
is the next and last command: nil when it succeeds, nil or the error by the same
test when it fails, and a panic when it cannot be started. -/
theorem DeleteDedupRules_outcomes {σ : Type} (w : World σ) (s s1 : Sys σ) (ebt : EBTables)
    (o1 : CmdOut) (hnew : New w s = (s1, Res.ret (some ebt, none)))
    (h1 : (w.run s1.world ebt.path [ebt.path, str "--concurrent", str "-t", str "filter",
      str "-D", str "OUTPUT", str "-j", str "CNI-DEDUP"]).2 = o1) :
    (∀ t, o1.err = some (RunErr.other t) →
      DeleteDedupRules w s =
        (afterRun w s1 ebt.path [ebt.path, str "--concurrent", str "-t", str "filter",
          str "-D", str "OUTPUT", str "-j", str "CNI-DEDUP"], Res.panic)) ∧
    (∀ c, o1.err = some (RunErr.exit c) →
      DeleteDedupRules w s =
        (afterRun w s1 ebt.path [ebt.path, str "--concurrent", str "-t", str "filter",
          str "-D", str "OUTPUT", str "-j", str "CNI-DEDUP"],
         Res.ret (if contains (GoError.ebt c o1.stderr).Error (str "Illegal target name")
           then none else some (GoError.ebt c o1.stderr)))) ∧
    (o1.err = none →
      ∀ o2, (w.run (afterRun w s1 ebt.path [ebt.path, str "--concurrent", str "-t",
          str "filter", str "-D", str "OUTPUT", str "-j", str "CNI-DEDUP"]).world ebt.path
          [ebt.path, str "--concurrent", str "-t", str "filter", str "-X",
            str "CNI-DEDUP"]).2 = o2 →
        (DeleteDedupRules w s).1 =
          afterRun w (afterRun w s1 ebt.path [ebt.path, str "--concurrent", str "-t",
            str "filter", str "-D", str "OUTPUT", str "-j", str "CNI-DEDUP"]) ebt.path
            [ebt.path, str "--concurrent", str "-t", str "filter", str "-X", str "CNI-DEDUP"] ∧
        (o2.err = none → (DeleteDedupRules w s).2 = Res.ret none) ∧
        (∀ c, o2.err = some (RunErr.exit c) →
          (DeleteDedupRules w s).2 =
            Res.ret (if contains (GoError.ebt c o2.stderr).Error (str "Illegal target name")
              then none else some (GoError.ebt c o2.stderr))) ∧
        (∀ t, o2.err = some (RunErr.other t) → (DeleteDedupRules w s).2 = Res.panic)) := by
  have hD : ebt.Delete w filterTable outputChain [str "-j", dedupChain] s1
      = (afterRun w s1 ebt.path [ebt.path, str "--concurrent", str "-t", str "filter",
          str "-D", str "OUTPUT", str "-j", str "CNI-DEDUP"], errOf o1) := by
    simp only [EBTables.Delete]
    rw [run_apply, ← h1]
    rfl
  rw [DeleteDedupRules_apply w s s1 ebt hnew, hD]
  refine ⟨?_, ?_, ?_⟩
  · intro t ht
    simp only [errOf, ht]
  · intro c hc
    simp only [errOf, hc]
  · intro hn o2 h2
    have hX : ebt.DeleteChain w filterTable dedupChain
        (afterRun w s1 ebt.path [ebt.path, str "--concurrent", str "-t", str "filter",
          str "-D", str "OUTPUT", str "-j", str "CNI-DEDUP"])
        = (afterRun w (afterRun w s1 ebt.path [ebt.path, str "--concurrent", str "-t",
            str "filter", str "-D", str "OUTPUT", str "-j", str "CNI-DEDUP"]) ebt.path
            [ebt.path, str "--concurrent", str "-t", str "filter", str "-X", str "CNI-DEDUP"],
           errOf o2) := by
      simp only [EBTables.DeleteChain]
      rw [run_apply, ← h2]
      rfl
    simp only [errOf, hn, hX]
    rcases ho : o2.err with _ | e
    · simp
    · cases e <;> simp

/-- Witness of C7: the jump is gone already and `DeleteDedupRules` returns nil
after the module load and the deletion of the jump; and when the ebtables
binary cannot be started, `DeleteDedupRules` panics. -/
theorem DeleteDedupRules_outcomes_witness :
    DeleteDedupRules scriptWorld (start [succeeded [], targetGone]) =
      (⟨[], [⟨str "/sbin/modprobe", [str "/sbin/modprobe", str "br-netfilter"]⟩,
        ⟨str "/sbin/ebtables", [str "/sbin/ebtables", str "--concurrent", str "-t",
          str "filter", str "-D", str "OUTPUT", str "-j", str "CNI-DEDUP"]⟩]⟩, Res.ret none) ∧
    (DeleteDedupRules scriptWorld (start [succeeded [], notStarted])).2 = Res.panic :=
  ⟨(DeleteDedupRules_outcomes scriptWorld (start [succeeded [], targetGone])
      ⟨[targetGone], [⟨str "/sbin/modprobe", [str "/sbin/modprobe", str "br-netfilter"]⟩]⟩
      modelClient targetGone rfl rfl).2.1 255 rfl,
   congrArg Prod.snd ((DeleteDedupRules_outcomes scriptWorld (start [succeeded [], notStarted])
      ⟨[notStarted], [⟨str "/sbin/modprobe", [str "/sbin/modprobe", str "br-netfilter"]⟩]⟩
      modelClient notStarted rfl rfl).1 _ rfl)⟩

theorem appendUniqueTimes_not_ok_of_stopped (sb : List Str → Bool) (t c : Str) (rule : Strings)
    (k : Nat) (s s' : Sys Store)
    (hb : stoppedAtRefused sb (modelClient.AppendUnique (storeWorld sb) t c rule s)) :
    appendUniqueTimes (storeWorld sb) modelClient t c rule (k + 1) s ≠ (s', Res.ret none) := by
  intro hok
  rw [appendUniqueTimes_succ] at hok
  rcases hA : modelClient.AppendUnique (storeWorld sb) t c rule s with ⟨s1, r⟩
  rw [hA] at hok hb
  have := hb.1
  simp only at this
  subst this
  cases hok

/-- C3, amended. In the model of the rule store, on a machine that starts the
argument vectors `sb`: for a rule whose joined string `List` reads back as it is
(not empty, on one line, without white space at its ends, not beginning with
"Bridge") and a chain whose listing does not show it, after `n ≥ 1` calls of
`AppendUnique` in a row that all returned nil, `List` returns the rule exactly
once. -/
theorem AppendUnique_lists_rule_once (sb : List Str → Bool) (table chain : Str)
    (rule : Strings) (st : Store) (n : Nat) (s' : Sys Store)
    (hread : readBack (join rule (str " ")))
    (hnew : ∀ out, listed (storeWorld sb) modelClient table chain (start st) = some out →
      join rule (str " ") ∉ out)
    (hn : 1 ≤ n)
    (hok : appendUniqueTimes (storeWorld sb) modelClient table chain rule n (start st)
      = (s', Res.ret none)) :
    ∃ out, listed (storeWorld sb) modelClient table chain s' = some out ∧
      out.count (join rule (str " ")) = 1 := by
  obtain ⟨k, rfl⟩ : ∃ k, n = k + 1 := ⟨n - 1, by omega⟩
  cases hr : st.rules table chain with
  | none =>
    exfalso
    have hm := model_AppendUnique_missing sb (start st) table chain rule hr
    rw [appendUniqueTimes_succ] at hok
    rcases hA : modelClient.AppendUnique (storeWorld sb) table chain rule (start st) with ⟨s1, r⟩
    rw [hA] at hok hm
    cases r with
    | panic => cases hok
    | ret e =>
      cases e with
      | none => exact hm rfl
      | some e => cases hok
  | some rs =>
    rcases model_AppendUnique sb (start st) table chain rule rs hr
      with ⟨hs, st1, tr1, e1, h1, -⟩ | hb
    swap
    · exact absurd hok (appendUniqueTimes_not_ok_of_stopped sb _ _ _ _ _ _ hb)
    have habs : join rule (str " ") ∉ parseRules (listing rs) :=
      hnew _ (model_listed sb (start st) table chain rs hr hs)
    simp only [added, habs, if_false] at h1
    have hparse : parseRules (listing (rs ++ [join rule (str " ")]))
        = parseRules (listing rs) ++ [join rule (str " ")] := by
      rw [parseRules_listing_append, parseRules_of_readBack hread]
    rw [appendUniqueTimes_succ, e1] at hok
    have h2 := appendUniqueTimes_present sb table chain rule _ (by rw [hparse]; simp) k
      ⟨st1, tr1⟩ s' h1 hok
    refine ⟨_, model_listed sb s' table chain _ h2 hs, ?_⟩
    rw [hparse, List.count_append, List.count_eq_zero_of_not_mem habs]
    simp

/-- Witness of C3, amended: the accept rule of the tests, three times on the
empty chain test. -/
theorem AppendUnique_lists_rule_once_witness :
    ∃ out, listed modelWorld modelClient (str "filter") (str "test")
        (appendUniqueTimes modelWorld modelClient (str "filter") (str "test")
          (common_args (str "4e:4f:41:48:00:00") ++ [str "10.1.1.1", str "-j", str "ACCEPT"]) 3
          (start (Store.empty.set (str "filter") (str "test") []))).1 = some out ∧
      out.count (join (common_args (str "4e:4f:41:48:00:00") ++
        [str "10.1.1.1", str "-j", str "ACCEPT"]) (str " ")) = 1 :=
  AppendUnique_lists_rule_once nulFree (str "filter") (str "test") _
    (Store.empty.set (str "filter") (str "test") []) 3 _
    (readBack_acceptRule (by decide) (by decide)) (by decide) (by decide)
    (Prod.ext rfl (by decide))

/-- Counterexample to C3. The rule -j "ACCEPT " (a space at the end of the last
token), twice on the empty chain test: both calls return nil, the chain holds
the rule twice, and `List` returns "-j ACCEPT" twice and the rule itself not
once. And the rule -j ACCEPT, once on a chain that holds it only with white
space around it, " -j ACCEPT" and "-j ACCEPT ": the chain does not hold the
rule, its listing shows it twice, the call returns nil and `List` returns the
rule twice. -/
theorem AppendUnique_duplicates_untrimmed_rule :
    (listed modelWorld modelClient (str "filter") (str "test")
      (start (Store.empty.set (str "filter") (str "test") [])) = some [] ∧
    (appendUniqueTimes modelWorld modelClient (str "filter") (str "test")
      [str "-j", str "ACCEPT "] 2
      (start (Store.empty.set (str "filter") (str "test") []))).2 = Res.ret none ∧
    (appendUniqueTimes modelWorld modelClient (str "filter") (str "test")
      [str "-j", str "ACCEPT "] 2
      (start (Store.empty.set (str "filter") (str "test") []))).1.world.rules
        (str "filter") (str "test") = some [str "-j ACCEPT ", str "-j ACCEPT "] ∧
    listed modelWorld modelClient (str "filter") (str "test")
      (appendUniqueTimes modelWorld modelClient (str "filter") (str "test")
        [str "-j", str "ACCEPT "] 2
        (start (Store.empty.set (str "filter") (str "test") []))).1
      = some [str "-j ACCEPT", str "-j ACCEPT"] ∧
    ([str "-j ACCEPT", str "-j ACCEPT"] : List Str).count
      (join [str "-j", str "ACCEPT "] (str " ")) ≠ 1) ∧
    (join [str "-j", str "ACCEPT"] (str " ") ∉ [str " -j ACCEPT", str "-j ACCEPT "] ∧
    (appendUniqueTimes modelWorld modelClient (str "filter") (str "test")
      [str "-j", str "ACCEPT"] 1
      (start (Store.empty.set (str "filter") (str "test")
        [str " -j ACCEPT", str "-j ACCEPT "]))).2 = Res.ret none ∧
    listed modelWorld modelClient (str "filter") (str "test")
      (appendUniqueTimes modelWorld modelClient (str "filter") (str "test")
        [str "-j", str "ACCEPT"] 1
        (start (Store.empty.set (str "filter") (str "test")
          [str " -j ACCEPT", str "-j ACCEPT "]))).1
      = some [str "-j ACCEPT", str "-j ACCEPT"] ∧
    ([str "-j ACCEPT", str "-j ACCEPT"] : List Str).count
      (join [str "-j", str "ACCEPT"] (str " ")) ≠ 1) := by
  decide

theorem jumpsTo_jumpRule : jumpsTo dedupChain jumpRule = true := by decide

theorem countP_jump (out0 : List Str) (h : ∀ r ∈ out0, jumpsTo dedupChain r = false) :
    (out0 ++ [jumpRule]).countP (jumpsTo dedupChain) = 1 := by
  have h0 : out0.countP (jumpsTo dedupChain) = 0 := by
    rw [List.countP_eq_zero]
    intro r hr
    simp [h r hr]
  rw [List.countP_append, h0]
  simp [List.countP_cons, jumpsTo_jumpRule]

theorem addDedupRulesTwice_stopped_first (sb : List Str → Bool) (mac ip nw : Str)
    (s : Sys Store) (hb : stoppedAtRefused sb (AddDedupRules (storeWorld sb) mac ip nw s)) :
    stoppedAtRefused sb (addDedupRulesTwice (storeWorld sb) mac ip nw s) := by
  unfold addDedupRulesTwice
  exact bind_stopped sb _ _ s hb

theorem addDedupRulesTwice_stopped_second (sb : List Str → Bool) (mac ip nw : Str)
    (s s1 : Sys Store) (e1 : AddDedupRules (storeWorld sb) mac ip nw s = (s1, Res.ret none))
    (hb : stoppedAtRefused sb (AddDedupRules (storeWorld sb) mac ip nw s1)) :
    stoppedAtRefused sb (addDedupRulesTwice (storeWorld sb) mac ip nw s) := by
  unfold addDedupRulesTwice
  rw [bind_ret _ _ s _ _ e1]
  exact bind_stopped sb _ _ s1 hb

/-- C6, amended. In the model of the rule store, on a machine that starts the
argument vectors `sb` and started every command of the two calls: for mac, ip
and network without a newline, from a store without the dedup chain and whose
OUTPUT chain lists no rule that jumps to it, `AddDedupRules` called twice with
the same arguments returns nil both times; afterwards `List` of the dedup chain
returns the accept rule and the drop rule and nothing else, and `List` of OUTPUT
returns exactly one rule that jumps to the dedup chain, the rule -j CNI-DEDUP;
in the store the dedup chain holds these two rules, and OUTPUT its rules of
before and then the rule -j CNI-DEDUP. -/
theorem AddDedupRules_twice_no_duplicates (sb : List Str → Bool) (mac ip nw : Str)
    (st : Store)
    (hmac : '\n' ∉ mac) (hip : '\n' ∉ ip) (hnw : '\n' ∉ nw)
    (hchain : st.rules filterTable dedupChain = none)
    (hjump : ∀ out,
      listed (storeWorld sb) modelClient filterTable outputChain (start st) = some out →
      ∀ r ∈ out, jumpsTo dedupChain r = false)
    (hstarted : ∀ inv ∈ (addDedupRulesTwice (storeWorld sb) mac ip nw (start st)).1.trace,
      sb inv.args = true) :
    ∃ s', addDedupRulesTwice (storeWorld sb) mac ip nw (start st)
        = (s', Res.ret (none, none)) ∧
      listed (storeWorld sb) modelClient filterTable dedupChain s'
        = some [acceptRule mac ip, dropRule mac nw] ∧
      (∃ out, listed (storeWorld sb) modelClient filterTable outputChain s' = some out ∧
        out.countP (jumpsTo dedupChain) = 1 ∧ jumpRule ∈ out) ∧
      s'.world.rules filterTable dedupChain = some [acceptRule mac ip, dropRule mac nw] ∧
      ∃ out0, st.rules filterTable outputChain = some out0 ∧
        s'.world.rules filterTable outputChain = some (out0 ++ [jumpRule]) := by
  have hno : ∀ {x : Sys Store × Res (Option GoError × Option GoError)},
      addDedupRulesTwice (storeWorld sb) mac ip nw (start st) = x →
      ¬ stoppedAtRefused sb x := by
    intro x hx hb
    obtain ⟨-, inv, hinv, hfalse⟩ := hb
    rw [← hx] at hinv
    rw [hstarted inv hinv] at hfalse
    cases hfalse
  obtain ⟨out0, ho⟩ := rules_output st
  have hA := readBack_acceptRule hmac hip
  have hD := readBack_dropRule hmac hnw
  have hnot : dropRule mac nw ∉ parseRules (listing [acceptRule mac ip]) := by
    rw [parseRules_listing_single hA]
    simp only [List.mem_singleton]
    exact fun h => acceptRule_ne_dropRule mac ip nw h.symm
  -- the first call
  rcases model_AddDedupRules sb (start st) mac ip nw [] out0 (Or.inl ⟨hchain, rfl⟩) ho
    with ⟨hsd, hso, st1, tr1, e1, d1, o1⟩ | hb
  swap
  · exact absurd (addDedupRulesTwice_stopped_first sb mac ip nw _ hb) (hno rfl)
  have hj0 : ∀ r ∈ parseRules (listing out0), jumpsTo dedupChain r = false :=
    hjump _ (model_listed sb (start st) _ _ _ ho hso)
  have hj : jumpRule ∉ parseRules (listing out0) := by
    intro hm
    have := hj0 _ hm
    rw [jumpsTo_jumpRule] at this
    cases this
  have d1' : st1.rules filterTable dedupChain = some [acceptRule mac ip, dropRule mac nw] := by
    rw [d1, added_nil]; simp [added, hnot]
  have o1' : st1.rules filterTable outputChain = some (out0 ++ [jumpRule]) := by
    rw [o1]; simp [added, hj]
  -- the second call
  rcases model_AddDedupRules sb ⟨st1, tr1⟩ mac ip nw _ _ (Or.inr d1') o1'
    with ⟨-, -, st2, tr2, e2, d2, o2⟩ | hb
  swap
  · exact absurd (addDedupRulesTwice_stopped_second sb mac ip nw _ _ e1 hb) (hno rfl)
  have hpJ : parseRules (listing (out0 ++ [jumpRule]))
      = parseRules (listing out0) ++ [jumpRule] := by
    rw [parseRules_listing_append, parseRules_of_readBack readBack_jumpRule]
  have d2' : st2.rules filterTable dedupChain = some [acceptRule mac ip, dropRule mac nw] := by
    rw [d2]
    simp [added, parseRules_listing_pair hA hD]
  have o2' : st2.rules filterTable outputChain = some (out0 ++ [jumpRule]) := by
    rw [o2]
    simp [added, hpJ]
  refine ⟨⟨st2, tr2⟩, ?_, ?_, ⟨_, model_listed sb ⟨st2, tr2⟩ _ _ _ o2' hso, ?_, ?_⟩, d2',
    out0, ho, o2'⟩
  · simp only [addDedupRulesTwice, Go.bind_apply, e1, e2, Go.pure_apply]
  · rw [model_listed sb ⟨st2, tr2⟩ _ _ _ d2' hsd, parseRules_listing_pair hA hD]
  · rw [hpJ]
    exact countP_jump _ hj0
  · rw [hpJ]
    simp

/-- Witness of C6, amended: the triple of the claim on the store with only the
built-in chains, on the machine that starts the argument vectors without a NUL
byte. -/
theorem AddDedupRules_twice_no_duplicates_witness :
    ∃ s', addDedupRulesTwice modelWorld (str "4e:4f:41:48:00:00") (str "10.1.1.1")
        (str "10.1.1.0/24") (start Store.empty) = (s', Res.ret (none, none)) ∧
      listed modelWorld modelClient filterTable dedupChain s'
        = some [acceptRule (str "4e:4f:41:48:00:00") (str "10.1.1.1"),
            dropRule (str "4e:4f:41:48:00:00") (str "10.1.1.0/24")] ∧
      (∃ out, listed modelWorld modelClient filterTable outputChain s' = some out ∧
        out.countP (jumpsTo dedupChain) = 1 ∧ jumpRule ∈ out) ∧
      s'.world.rules filterTable dedupChain
        = some [acceptRule (str "4e:4f:41:48:00:00") (str "10.1.1.1"),
            dropRule (str "4e:4f:41:48:00:00") (str "10.1.1.0/24")] ∧
      ∃ out0, Store.empty.rules filterTable outputChain = some out0 ∧
        s'.world.rules filterTable outputChain = some (out0 ++ [jumpRule]) :=
  AddDedupRules_twice_no_duplicates nulFree (str "4e:4f:41:48:00:00") (str "10.1.1.1")
    (str "10.1.1.0/24") Store.empty (by decide) (by decide) (by decide) (by decide)
    (by decide) (by decide)

/-- Counterexample to C6, from the store with only the built-in chains. With a
newline behind the ip "10.1.1.1" both calls return nil and the second appends
the accept rule again: `List` of the dedup chain returns five entries, not two.
With a NUL byte behind the mac the operating system does not start the command
that appends the accept rule, and the first call does not return nil: it
panics. -/
theorem AddDedupRules_twice_duplicates_with_newline :
    Store.empty.rules filterTable dedupChain = none ∧
    listed modelWorld modelClient filterTable outputChain (start Store.empty) = some [] ∧
    (addDedupRulesTwice modelWorld (str "4e:4f:41:48:00:00") (str "10.1.1.1\n")
      (str "10.1.1.0/24") (start Store.empty)).2 = Res.ret (none, none) ∧
    listed modelWorld modelClient filterTable dedupChain
      (addDedupRulesTwice modelWorld (str "4e:4f:41:48:00:00") (str "10.1.1.1\n")
        (str "10.1.1.0/24") (start Store.empty)).1
      = some [str "-p IPv4 -s 4e:4f:41:48:00:00 -o veth+ --ip-src 10.1.1.1",
          str "-j ACCEPT",
          str "-p IPv4 -s 4e:4f:41:48:00:00 -o veth+ --ip-src 10.1.1.0/24 -j DROP",
          str "-p IPv4 -s 4e:4f:41:48:00:00 -o veth+ --ip-src 10.1.1.1",
          str "-j ACCEPT"] ∧
    (AddDedupRules modelWorld (str "4e:4f:41:48:00:00\x00") (str "10.1.1.1")
      (str "10.1.1.0/24") (start Store.empty)).2 = Res.panic ∧
    (addDedupRulesTwice modelWorld (str "4e:4f:41:48:00:00\x00") (str "10.1.1.1")
      (str "10.1.1.0/24") (start Store.empty)).2 = Res.panic := by
  decide

/-- C5, amended. A successful `AddDedupRules` is the construction of the client,
the creation of the chain, and three successful `AppendUnique` in this order: on
CNI-DEDUP of filter the common prefix with ip -j ACCEPT, on the same chain the
common prefix with network -j DROP, on OUTPUT of filter -j CNI-DEDUP. The
`append` that builds the accept rule leaves `common_args` as it was, and the
drop rule is built on it. In the model of the rule store, for mac, ip and
network without a newline, after a successful `AddDedupRules` on a dedup chain
that was absent or empty the chain holds the accept rule and then the drop
rule, and `List` returns them in this order. -/
theorem AddDedupRules_appends_accept_drop_jump {σ : Type} (w : World σ) (mac ip nw : Str)
    (s : Sys σ) :
    (∀ s', AddDedupRules w mac ip nw s = (s', Res.ret none) →
      ∃ ebt s1 s2 s3 s4 e,
        New w s = (s1, Res.ret (some ebt, none)) ∧
        ebt.NewChain w filterTable dedupChain s1 = (s2, Res.ret e) ∧
        ebt.AppendUnique w filterTable dedupChain
          (common_args mac ++ [ip, str "-j", str "ACCEPT"]) s2 = (s3, Res.ret none) ∧
        ebt.AppendUnique w filterTable dedupChain
          (common_args mac ++ [nw, str "-j", str "DROP"]) s3 = (s4, Res.ret none) ∧
        ebt.AppendUnique w filterTable outputChain [str "-j", dedupChain] s4
          = (s', Res.ret none)) ∧
    ((goAppend (sliceLit (common_args mac)) [ip, str "-j", str "ACCEPT"]).2.elems
        = common_args mac ∧
      (goAppend (goAppend (sliceLit (common_args mac)) [ip, str "-j", str "ACCEPT"]).2
        [nw, str "-j", str "DROP"]).1.elems = common_args mac ++ [nw, str "-j", str "DROP"]) ∧
    (∀ (sb : List Str → Bool) (st : Store) (s' : Sys Store),
      st.rules filterTable dedupChain = none ∨ st.rules filterTable dedupChain = some [] →
      '\n' ∉ mac → '\n' ∉ ip → '\n' ∉ nw →
      AddDedupRules (storeWorld sb) mac ip nw (start st) = (s', Res.ret none) →
      s'.world.rules filterTable dedupChain = some [acceptRule mac ip, dropRule mac nw] ∧
      listed (storeWorld sb) modelClient filterTable dedupChain s'
        = some [acceptRule mac ip, dropRule mac nw]) := by
  refine ⟨fun s' h => AddDedupRules_ok w mac ip nw s s' h, ?_, ?_⟩
  · rw [(goAppend_accept mac ip).2, goAppend_drop]
    exact ⟨by simp [sliceLit, Slice.elems], rfl⟩
  · intro sb st s' hst hmac hip hnw hok
    obtain ⟨out0, ho⟩ := rules_output st
    have hd : (start st).world.rules filterTable dedupChain = none ∧ ([] : List Str) = [] ∨
        (start st).world.rules filterTable dedupChain = some [] := by
      rcases hst with h | h
      · exact Or.inl ⟨h, rfl⟩
      · exact Or.inr h
    rcases model_AddDedupRules sb (start st) mac ip nw [] out0 hd ho
      with ⟨hsd, -, st', tr, e, h1, -⟩ | hb
    swap
    · rw [hok] at hb
      exact absurd hb.1 (by simp)
    rw [hok] at e
    cases e
    have hA := readBack_acceptRule hmac hip
    have hD := readBack_dropRule hmac hnw
    have hnot : dropRule mac nw ∉ parseRules (listing [acceptRule mac ip]) := by
      rw [parseRules_listing_single hA]
      simp only [List.mem_singleton]
      exact fun h => acceptRule_ne_dropRule mac ip nw h.symm
    rw [added_nil, List.nil_append] at h1
    have h2 : st'.rules filterTable dedupChain = some [acceptRule mac ip, dropRule mac nw] := by
      rw [h1]
      simp [added, hnot]
    refine ⟨h2, ?_⟩
    rw [model_listed sb ⟨st', tr⟩ _ _ _ h2 hsd, parseRules_listing_pair hA hD]

/-- Witness of C5, amended: on the store with only the built-in chains,
`AddDedupRules` returns nil and the dedup chain holds the accept rule and then
the drop rule. -/
theorem AddDedupRules_appends_accept_drop_jump_witness :
    (AddDedupRules modelWorld (str "4e:4f:41:48:00:00") (str "10.1.1.1")
      (str "10.1.1.0/24") (start Store.empty)).2 = Res.ret none ∧
    listed modelWorld modelClient filterTable dedupChain
      (AddDedupRules modelWorld (str "4e:4f:41:48:00:00") (str "10.1.1.1")
        (str "10.1.1.0/24") (start Store.empty)).1
      = some [acceptRule (str "4e:4f:41:48:00:00") (str "10.1.1.1"),
          dropRule (str "4e:4f:41:48:00:00") (str "10.1.1.0/24")] :=
  ⟨by decide,
   ((AddDedupRules_appends_accept_drop_jump modelWorld (str "4e:4f:41:48:00:00")
      (str "10.1.1.1") (str "10.1.1.0/24") (start Store.empty)).2.2 nulFree Store.empty _
      (Or.inl (by decide)) (by decide) (by decide) (by decide)
      (Prod.ext rfl (by decide))).2⟩

/-- Counterexample to C5, on the store with only the built-in chains. With a
newline behind the ip "10.1.1.1", `AddDedupRules` returns nil and `List` of the
dedup chain returns three lines, none of them the accept rule. With the ip
"10.1.1.0/24 -j DROP", a newline and "x", `AddDedupRules` returns nil, the first
line that `List` returns is the drop rule, and the chain holds the accept rule
alone: the drop rule was found in the listing and not appended. -/
theorem AddDedupRules_accept_not_listed_with_newline :
    ((AddDedupRules modelWorld (str "4e:4f:41:48:00:00") (str "10.1.1.1\n")
      (str "10.1.1.0/24") (start Store.empty)).2 = Res.ret none ∧
    listed modelWorld modelClient filterTable dedupChain
      (AddDedupRules modelWorld (str "4e:4f:41:48:00:00") (str "10.1.1.1\n")
        (str "10.1.1.0/24") (start Store.empty)).1
      = some [str "-p IPv4 -s 4e:4f:41:48:00:00 -o veth+ --ip-src 10.1.1.1",
          str "-j ACCEPT",
          str "-p IPv4 -s 4e:4f:41:48:00:00 -o veth+ --ip-src 10.1.1.0/24 -j DROP"] ∧
    acceptRule (str "4e:4f:41:48:00:00") (str "10.1.1.1\n") ∉
      [str "-p IPv4 -s 4e:4f:41:48:00:00 -o veth+ --ip-src 10.1.1.1",
          str "-j ACCEPT",
          str "-p IPv4 -s 4e:4f:41:48:00:00 -o veth+ --ip-src 10.1.1.0/24 -j DROP"]) ∧
    ((AddDedupRules modelWorld (str "4e:4f:41:48:00:00") (str "10.1.1.0/24 -j DROP\nx")
      (str "10.1.1.0/24") (start Store.empty)).2 = Res.ret none ∧
    listed modelWorld modelClient filterTable dedupChain
      (AddDedupRules modelWorld (str "4e:4f:41:48:00:00") (str "10.1.1.0/24 -j DROP\nx")
        (str "10.1.1.0/24") (start Store.empty)).1
      = some [dropRule (str "4e:4f:41:48:00:00") (str "10.1.1.0/24"), str "x -j ACCEPT"] ∧
    (AddDedupRules modelWorld (str "4e:4f:41:48:00:00") (str "10.1.1.0/24 -j DROP\nx")
      (str "10.1.1.0/24") (start Store.empty)).1.world.rules filterTable dedupChain
      = some [acceptRule (str "4e:4f:41:48:00:00") (str "10.1.1.0/24 -j DROP\nx")]) := by
  decide

end Bridge
